import Mathlib

/-!
Verification of the XML content definition import/export layer of the
xblocks-contrib repository (the shared machinery of
`xblocks_contrib/html/html.py` and `xblocks_contrib/poll/poll.py`).

The embedding models Python values that flow through this layer as an
inductive `JVal` of JSON-compatible values, XML element trees as `XmlNode`,
and the resource store as an association list from paths to file contents.
Python's `json.loads` is modelled by an executable recursive-descent
function `json_loads`; `json.dumps` by `json_dumps`.  Known, deliberate
approximations of the model (none of which are exercised by the theorems
below): `json_loads` does not accept the non-standard `NaN`/`Infinity`
literals, surrogate-pair `\uXXXX` escapes decode unit-wise, and
`json_dumps` leaves non-ASCII characters unescaped where CPython would
emit `\uXXXX` escapes.  Floats are represented exactly as a decimal
mantissa/exponent pair as produced by the grammar, not as IEEE doubles.
-/

/-- JSON-compatible Python value: the values stored in metadata mappings,
field data and `xml_attributes` bags of this layer.  A float is the exact
decimal `m * 10 ^ e`. -/
inductive JVal where
  | null
  | bool (b : Bool)
  | int (n : Int)
  | float (m : Int) (e : Int)
  | str (s : String)
  | arr (xs : List JVal)
  | obj (kvs : List (String × JVal))

/-- Lookup in a Python-dict-like association list (first binding wins;
well-formed dicts have distinct keys). -/
def alookup {α : Type} (kvs : List (String × α)) (k : String) : Option α :=
  match kvs with
  | [] => none
  | (k', v) :: rest => if k' = k then some v else alookup rest k

/-- Assignment `d[k] = v` on a Python dict: updates the existing binding in
place, else appends a new binding (insertion order preserved). -/
def aset {α : Type} (kvs : List (String × α)) (k : String) (v : α) : List (String × α) :=
  match kvs with
  | [] => [(k, v)]
  | (k', v') :: rest => if k' = k then (k, v) :: rest else (k', v') :: aset rest k v

/-- Deletion `del d[k]` on a Python dict. -/
def adel {α : Type} (kvs : List (String × α)) (k : String) : List (String × α) :=
  match kvs with
  | [] => []
  | (k', v') :: rest => if k' = k then rest else (k', v') :: adel rest k

/-- Python `d.update(e)` / `{**d, **e}`: fold the right dict's bindings into
the left with Python assignment semantics. -/
def aupdate {α : Type} (d e : List (String × α)) : List (String × α) :=
  e.foldl (fun acc kv => aset acc kv.1 kv.2) d

/-- Membership `k in d` for a Python dict. -/
def amem {α : Type} (kvs : List (String × α)) (k : String) : Bool :=
  (alookup kvs k).isSome

/-- Key list of a dict, in insertion order. -/
def akeys {α : Type} (kvs : List (String × α)) : List String :=
  kvs.map (·.1)

/-- Whitespace accepted between JSON tokens by Python's `json.loads`. -/
def isJsonWs (c : Char) : Bool :=
  c = ' ' || c = '\t' || c = '\n' || c = '\r'

/-- Skip leading JSON whitespace. -/
def skipWs : List Char → List Char
  | [] => []
  | c :: cs => if isJsonWs c then skipWs cs else c :: cs

/-- Longest leading run of decimal digits, and the remainder. -/
def takeDigits : List Char → (List Char × List Char)
  | [] => ([], [])
  | c :: cs =>
    if c.isDigit then
      let p := takeDigits cs
      (c :: p.1, p.2)
    else ([], c :: cs)

/-- Numeric value of a digit run. -/
def digitsToNat (ds : List Char) : Nat :=
  ds.foldl (fun n c => n * 10 + (c.toNat - 48)) 0

/-- Value of a hexadecimal digit, if any. -/
def hexVal (c : Char) : Option Nat :=
  if '0' ≤ c ∧ c ≤ '9' then some (c.toNat - 48)
  else if 'a' ≤ c ∧ c ≤ 'f' then some (c.toNat - 87)
  else if 'A' ≤ c ∧ c ≤ 'F' then some (c.toNat - 55)
  else none

/-- Decode the body of a JSON string literal (after the opening quote),
accumulating decoded characters in reverse. -/
def parseStrAux (acc : List Char) : List Char → Except String (String × List Char)
  | [] => .error "Unterminated string"
  | '"' :: r => .ok (String.mk acc.reverse, r)
  | '\\' :: r =>
    match r with
    | '"' :: r' => parseStrAux ('"' :: acc) r'
    | '\\' :: r' => parseStrAux ('\\' :: acc) r'
    | '/' :: r' => parseStrAux ('/' :: acc) r'
    | 'b' :: r' => parseStrAux ('\x08' :: acc) r'
    | 'f' :: r' => parseStrAux ('\x0c' :: acc) r'
    | 'n' :: r' => parseStrAux ('\n' :: acc) r'
    | 'r' :: r' => parseStrAux ('\r' :: acc) r'
    | 't' :: r' => parseStrAux ('\t' :: acc) r'
    | 'u' :: h1 :: h2 :: h3 :: h4 :: r' =>
      match hexVal h1, hexVal h2, hexVal h3, hexVal h4 with
      | some a, some b, some c, some d =>
        parseStrAux (Char.ofNat (((a * 16 + b) * 16 + c) * 16 + d) :: acc) r'
      | _, _, _, _ => .error "Invalid \\uXXXX escape"
    | _ => .error "Invalid \\escape"
  | c :: r =>
    if c.toNat < 32 then .error "Invalid control character"
    else parseStrAux (c :: acc) r

/-- Parse a JSON number (the scanner's number token), per the grammar
`-? (0 | [1-9][0-9]*) (. [0-9]+)? ([eE][-+]?[0-9]+)?`.  Integral tokens
yield `JVal.int`, others `JVal.float`. -/
def parseNumber (cs : List Char) : Except String (JVal × List Char) :=
  let signed : Bool × List Char :=
    match cs with
    | '-' :: r => (true, r)
    | _ => (false, cs)
  let neg := signed.1
  let cs1 := signed.2
  match cs1 with
  | [] => .error "Expecting value"
  | c :: _ =>
    if !c.isDigit then .error "Expecting value"
    else
      let ip := takeDigits cs1
      if ip.1.length > 1 ∧ ip.1.headD '0' = '0' then .error "Expecting value"
      else
        let fracM : Option (List Char) × List Char :=
          match ip.2 with
          | '.' :: r =>
            let fp := takeDigits r
            if fp.1.isEmpty then (none, ip.2) else (some fp.1, fp.2)
          | _ => (none, ip.2)
        match fracM with
        | (none, rest1) =>
          match rest1 with
          | 'e' :: r2 => parseExpPart neg ip.1 [] r2
          | 'E' :: r2 => parseExpPart neg ip.1 [] r2
          | _ =>
            let n : Int := Int.ofNat (digitsToNat ip.1)
            .ok (.int (if neg then -n else n), rest1)
        | (some fd, rest1) =>
          match rest1 with
          | 'e' :: r2 => parseExpPart neg ip.1 fd r2
          | 'E' :: r2 => parseExpPart neg ip.1 fd r2
          | _ =>
            let m : Int := Int.ofNat (digitsToNat (ip.1 ++ fd))
            .ok (.float (if neg then -m else m) (-(Int.ofNat fd.length)), rest1)
where
  /-- Parse the exponent digits after `e`/`E` and finish the float token. -/
  parseExpPart (neg : Bool) (ipd fd : List Char) (r : List Char) :
      Except String (JVal × List Char) :=
    let esigned : Bool × List Char :=
      match r with
      | '-' :: r' => (true, r')
      | '+' :: r' => (false, r')
      | _ => (false, r)
    let ed := takeDigits esigned.2
    if ed.1.isEmpty then .error "Expecting value"
    else
      let ev : Int := Int.ofNat (digitsToNat ed.1)
      let ev := if esigned.1 then -ev else ev
      let m : Int := Int.ofNat (digitsToNat (ipd ++ fd))
      .ok (.float (if neg then -m else m) (ev - Int.ofNat fd.length), ed.2)

mutual

/-- Fuel-indexed recursive-descent parser for one JSON value, modelling
Python's `json.loads` scanner. -/
def parseVal (fuel : Nat) (cs : List Char) : Except String (JVal × List Char) :=
  match fuel with
  | 0 => .error "Out of fuel"
  | fuel + 1 =>
    match skipWs cs with
    | 'n' :: 'u' :: 'l' :: 'l' :: r => .ok (.null, r)
    | 't' :: 'r' :: 'u' :: 'e' :: r => .ok (.bool true, r)
    | 'f' :: 'a' :: 'l' :: 's' :: 'e' :: r => .ok (.bool false, r)
    | '"' :: r =>
      match parseStrAux [] r with
      | .error e => .error e
      | .ok (s, r') => .ok (.str s, r')
    | '[' :: r =>
      match skipWs r with
      | ']' :: r' => .ok (.arr [], r')
      | r' =>
        match parseArrItems fuel r' with
        | .error e => .error e
        | .ok (xs, r'') => .ok (.arr xs, r'')
    | '{' :: r =>
      match skipWs r with
      | '}' :: r' => .ok (.obj [], r')
      | r' =>
        match parseObjItems fuel r' with
        | .error e => .error e
        | .ok (kvs, r'') => .ok (.obj (aupdate [] kvs), r'')
    | r => parseNumber r

/-- Comma-separated JSON values up to a closing `]`. -/
def parseArrItems (fuel : Nat) (cs : List Char) : Except String (List JVal × List Char) :=
  match fuel with
  | 0 => .error "Out of fuel"
  | fuel + 1 =>
    match parseVal fuel cs with
    | .error e => .error e
    | .ok (v, r) =>
      match skipWs r with
      | ',' :: r' =>
        match parseArrItems fuel r' with
        | .error e => .error e
        | .ok (xs, r'') => .ok (v :: xs, r'')
      | ']' :: r' => .ok ([v], r')
      | _ => .error "Expecting comma"

/-- Comma-separated `"key": value` pairs up to a closing `}`. -/
def parseObjItems (fuel : Nat) (cs : List Char) :
    Except String (List (String × JVal) × List Char) :=
  match fuel with
  | 0 => .error "Out of fuel"
  | fuel + 1 =>
    match skipWs cs with
    | '"' :: r =>
      match parseStrAux [] r with
      | .error e => .error e
      | .ok (k, r1) =>
        match skipWs r1 with
        | ':' :: r2 =>
          match parseVal fuel r2 with
          | .error e => .error e
          | .ok (v, r3) =>
            match skipWs r3 with
            | ',' :: r4 =>
              match parseObjItems fuel r4 with
              | .error e => .error e
              | .ok (kvs, r5) => .ok ((k, v) :: kvs, r5)
            | '}' :: r4 => .ok ([(k, v)], r4)
            | _ => .error "Expecting comma"
        | _ => .error "Expecting colon"
    | _ => .error "Expecting property name"

end

/-- Python `json.loads`: parse one JSON document with nothing but
whitespace around it.  Returns the parse-error message on failure (the
model's messages, not CPython's exact wording). -/
def json_loads (s : String) : Except String JVal :=
  let cs := s.data
  match parseVal (cs.length + 2) cs with
  | .error e => .error e
  | .ok (v, rest) =>
    if (skipWs rest).isEmpty then .ok v else .error "Extra data"

/-- Lowercase four-digit hexadecimal form of a (small) number. -/
def hex4 (n : Nat) : String :=
  let d := "0123456789abcdef".data
  String.mk [d.getD (n / 4096 % 16) '0', d.getD (n / 256 % 16) '0',
             d.getD (n / 16 % 16) '0', d.getD (n % 16) '0']

/-- Escape one character as Python's `json.dumps` does inside a string
literal (non-ASCII characters are left literal; CPython would escape
them, which no theorem below exercises). -/
def escJsonChar (c : Char) : String :=
  if c = '"' then "\\\""
  else if c = '\\' then "\\\\"
  else if c = '\n' then "\\n"
  else if c = '\r' then "\\r"
  else if c = '\t' then "\\t"
  else if c = '\x08' then "\\b"
  else if c = '\x0c' then "\\f"
  else if c.toNat < 32 then "\\u" ++ hex4 c.toNat
  else String.singleton c

/-- JSON string literal for `s`, as `json.dumps` emits it. -/
def json_quote (s : String) : String :=
  "\"" ++ String.join (s.data.map escJsonChar) ++ "\""

/-- Decimal rendering of the float `m * 10 ^ e` in Python `repr` style for
the exact-decimal floats this model produces. -/
def floatRepr (m : Int) (e : Int) : String :=
  let sign := if m < 0 then "-" else ""
  let digs := (toString m.natAbs).data
  if 0 ≤ e then
    sign ++ String.mk digs ++ String.mk (List.replicate e.toNat '0') ++ ".0"
  else
    let k := (-e).toNat
    let padded := if digs.length ≤ k then List.replicate (k + 1 - digs.length) '0' ++ digs else digs
    sign ++ String.mk (padded.take (padded.length - k)) ++ "." ++
      String.mk (padded.drop (padded.length - k))

/-- Python `json.dumps` with default separators on JSON-compatible values. -/
def json_dumps : JVal → String
  | .null => "null"
  | .bool true => "true"
  | .bool false => "false"
  | .int n => toString n
  | .float m e => floatRepr m e
  | .str s => json_quote s
  | .arr xs => "[" ++ String.intercalate ", " (xs.attach.map fun x => json_dumps x.1) ++ "]"
  | .obj kvs =>
    "\x7b" ++ String.intercalate ", "
      (kvs.attach.map fun kv => json_quote kv.1.1 ++ ": " ++ json_dumps kv.1.2) ++ "\x7d"
decreasing_by
  all_goals simp_wf
  · have := List.sizeOf_lt_of_mem x.2
    omega
  · rcases kv with ⟨⟨k, v⟩, hk⟩
    have := List.sizeOf_lt_of_mem hk
    simp only [Prod.mk.sizeOf_spec] at this
    simp only []
    omega

/-- Timezone attached to a datetime: `utcoffsetMinutes = none` models a
`tzinfo` object whose `utcoffset()` returns `None`. -/
structure Tzinfo where
  utcoffsetMinutes : Option Int

/-- Python `datetime.datetime` (microseconds omitted: the modelled values
have `microsecond == 0`, for which `isoformat` prints no fraction). -/
structure PyDatetime where
  year : Nat
  month : Nat
  day : Nat
  hour : Nat
  minute : Nat
  second : Nat
  tzinfo : Option Tzinfo

/-- Two-digit zero-padded decimal. -/
def pad2 (n : Nat) : String :=
  if n < 10 then "0" ++ toString n else toString n

/-- Four-digit zero-padded decimal. -/
def pad4 (n : Nat) : String :=
  if n < 10 then "000" ++ toString n
  else if n < 100 then "00" ++ toString n
  else if n < 1000 then "0" ++ toString n
  else toString n

/-- UTC-offset suffix `+HH:MM` / `-HH:MM` printed by `isoformat` when
`utcoffset()` is not `None`. -/
def offsetSuffix (o : Int) : String :=
  (if o < 0 then "-" else "+") ++ pad2 (o.natAbs / 60) ++ ":" ++ pad2 (o.natAbs % 60)

/-- Python `datetime.isoformat()` for the modelled datetimes: the offset
suffix appears exactly when `utcoffset()` is not `None`. -/
def isoformat (d : PyDatetime) : String :=
  pad4 d.year ++ "-" ++ pad2 d.month ++ "-" ++ pad2 d.day ++ "T" ++
    pad2 d.hour ++ ":" ++ pad2 d.minute ++ ":" ++ pad2 d.second ++
    (match d.tzinfo with
     | none => ""
     | some tz =>
       match tz.utcoffsetMinutes with
       | none => ""
       | some o => offsetSuffix o)

/-- Values reaching `html.py`'s `serialize_field`: JSON-compatible values
plus `datetime` objects and opaque key objects (`CourseKey`/`UsageKey`,
carried by their string form) at any depth. -/
inductive EVal where
  | null
  | bool (b : Bool)
  | int (n : Int)
  | float (m : Int) (e : Int)
  | str (s : String)
  | arr (xs : List EVal)
  | obj (kvs : List (String × EVal))
  | key (s : String)
  | dt (d : PyDatetime)

/-- String the `EdxJSONEncoder.default` hook produces for a datetime
(`html.py` lines 49–56): ISO-8601, with `Z` appended exactly when `tzinfo`
is present but `utcoffset()` is `None`. -/
def edxEncodeDt (d : PyDatetime) : String :=
  match d.tzinfo with
  | none => isoformat d
  | some tz =>
    match tz.utcoffsetMinutes with
    | none => isoformat d ++ "Z"
    | some _ => isoformat d

/-- Python `json.dumps(value, cls=EdxJSONEncoder)`: standard JSON encoding
extended to stringify key objects via `str(o)` and datetimes via the
encoder's datetime branch (`html.py` `EdxJSONEncoder.default`). -/
def edx_dumps : EVal → String
  | .null => "null"
  | .bool true => "true"
  | .bool false => "false"
  | .int n => toString n
  | .float m e => floatRepr m e
  | .str s => json_quote s
  | .key s => json_quote s
  | .dt d => json_quote (edxEncodeDt d)
  | .arr xs => "[" ++ String.intercalate ", " (xs.attach.map fun x => edx_dumps x.1) ++ "]"
  | .obj kvs =>
    "\x7b" ++ String.intercalate ", "
      (kvs.attach.map fun kv => json_quote kv.1.1 ++ ": " ++ edx_dumps kv.1.2) ++ "\x7d"
decreasing_by
  all_goals simp_wf
  · have := List.sizeOf_lt_of_mem x.2
    omega
  · rcases kv with ⟨⟨k, v⟩, hk⟩
    have := List.sizeOf_lt_of_mem hk
    simp only [Prod.mk.sizeOf_spec] at this
    simp only []
    omega

/-- Field codec `serialize_field` of `html.py` (lines 199–213): strings
pass through unchanged; a datetime gets `isoformat()` with a literal `Z`
appended exactly when `tzinfo` is present but `utcoffset()` is `None`;
everything else goes through `json.dumps(-, cls=EdxJSONEncoder)`. -/
def serialize_field (value : EVal) : String :=
  match value with
  | .str s => s
  | .dt d =>
    match d.tzinfo with
    | some tz =>
      match tz.utcoffsetMinutes with
      | none => isoformat d ++ "Z"
      | some _ => isoformat d
    | none => isoformat d
  | v => edx_dumps v

/-- Field codec `serialize_field` of `poll.py` (lines 65–79) restricted to
the JSON-compatible values poll blocks hold: identical to the html version
except that the final branch is plain `json.dumps` (no `EdxJSONEncoder`);
the datetime branch is unreachable for `JVal` inputs. -/
def poll_serialize_field (value : JVal) : String :=
  match value with
  | .str s => s
  | v => json_dumps v

/-- Scope of a declared XBlock field. -/
inductive FScope where
  | settings
  | content
  | userState
  | userStateSummary
deriving DecidableEq

/-- Declared field of a block class: its scope and its `from_json`
validator/converter.  The `from_json` behaviours are modelled from the
external `xblock.fields` API that both `deserialize_field` implementations
call into (raising `TypeError`/`ValueError` on a type mismatch, which the
spec describes as the declared type rejecting the value). -/
structure FieldSpec where
  scope : FScope
  from_json : JVal → Except Unit JVal

/-- Python `bool(value)` truthiness on JSON-compatible values. -/
def pyTruthy : JVal → Bool
  | .null => false
  | .bool b => b
  | .int n => n ≠ 0
  | .float m _ => m ≠ 0
  | .str s => s ≠ ""
  | .arr xs => !xs.isEmpty
  | .obj kvs => !kvs.isEmpty

/-- Python `int(s)` on a string: optional surrounding whitespace, optional
sign, then decimal digits (digit-group underscores are not modelled). -/
def pyIntOfString (s : String) : Option Int :=
  let t := s.trim
  let p : Bool × List Char :=
    match t.data with
    | '-' :: r => (true, r)
    | '+' :: r => (false, r)
    | l => (false, l)
  if p.2 ≠ [] ∧ p.2.all Char.isDigit then
    some (if p.1 then -(Int.ofNat (digitsToNat p.2)) else Int.ofNat (digitsToNat p.2))
  else none

/-- Python `int(x)` truncation toward zero of the float `m * 10 ^ e`. -/
def floatToInt (m : Int) (e : Int) : Int :=
  if 0 ≤ e then m * Int.ofNat (10 ^ e.toNat) else Int.tdiv m (Int.ofNat (10 ^ (-e).toNat))

/-- Model of `xblock.fields.String.from_json`: accepts `None` and strings,
raises `TypeError` otherwise. -/
def stringFromJson : JVal → Except Unit JVal
  | .null => .ok .null
  | .str s => .ok (.str s)
  | _ => .error ()

/-- Model of `xblock.fields.Integer.from_json`: `None` and the empty string
become `None`; otherwise `int(value)`, which raises on non-numeric input. -/
def integerFromJson : JVal → Except Unit JVal
  | .null => .ok .null
  | .str s =>
    if s = "" then .ok .null
    else
      match pyIntOfString s with
      | some n => .ok (.int n)
      | none => .error ()
  | .int n => .ok (.int n)
  | .float m e => .ok (.int (floatToInt m e))
  | .bool b => .ok (.int (if b then 1 else 0))
  | .arr _ => .error ()
  | .obj _ => .error ()

/-- Model of `xblock.fields.Boolean.from_json`: a string compares
case-insensitively against `"true"`; anything else goes through `bool()`.
Never raises. -/
def booleanFromJson : JVal → Except Unit JVal
  | .str s => .ok (.bool (s.toLower = "true"))
  | v => .ok (.bool (pyTruthy v))

/-- Model of `xblock.fields.List.from_json`: accepts `None` and lists. -/
def listFromJson : JVal → Except Unit JVal
  | .null => .ok .null
  | .arr xs => .ok (.arr xs)
  | _ => .error ()

/-- Model of `xblock.fields.Dict.from_json`: accepts `None` and dicts. -/
def dictFromJson : JVal → Except Unit JVal
  | .null => .ok .null
  | .obj kvs => .ok (.obj kvs)
  | _ => .error ()

/-- String-typed field (scope settings), as used by `display_name`. -/
def StringField : FieldSpec :=
  { scope := .settings, from_json := stringFromJson }

/-- Integer-typed field (scope settings), for the spec's
`deserialize(Integer_field, "3")` example. -/
def IntegerField : FieldSpec :=
  { scope := .settings, from_json := integerFromJson }

/-- Field codec `deserialize_field` (`html.py` lines 216–245, `poll.py`
lines 82–111, identical code): `json.loads` the raw string; on a parse
failure return the raw string; a decoded `None` is returned as `None`;
otherwise keep the decoded value only if the declared field's `from_json`
accepts it, falling back to the raw string when it raises. -/
def deserialize_field (field : FieldSpec) (value : String) : JVal :=
  match json_loads value with
  | .error _ => .str value
  | .ok .null => .null
  | .ok v =>
    match field.from_json v with
    | .ok _ => v
    | .error _ => .str value

/-- An lxml `etree` element: tag, attributes in document order, text before
the first child, child elements, and tail text after the closing tag. -/
inductive XmlNode where
  | mk (tag : String) (attrib : List (String × String)) (text : Option String)
       (children : List XmlNode) (tail : Option String)

/-- Tag of an element. -/
def XmlNode.tag : XmlNode → String
  | .mk t _ _ _ _ => t

/-- Attribute dict of an element. -/
def XmlNode.attrib : XmlNode → List (String × String)
  | .mk _ a _ _ _ => a

/-- Text before the first child (`None` when absent). -/
def XmlNode.text : XmlNode → Option String
  | .mk _ _ t _ _ => t

/-- Child elements in document order. -/
def XmlNode.children : XmlNode → List XmlNode
  | .mk _ _ _ c _ => c

/-- Tail text after the closing tag (`None` when absent). -/
def XmlNode.tail : XmlNode → Option String
  | .mk _ _ _ _ t => t

/-- Python `element.get(name)`. -/
def XmlNode.get (x : XmlNode) (name : String) : Option String :=
  alookup x.attrib name

/-- Escape a character for XML text content as lxml's serializer does. -/
def escXmlTextChar (c : Char) : String :=
  if c = '&' then "&amp;"
  else if c = '<' then "&lt;"
  else if c = '>' then "&gt;"
  else if c = '\r' then "&#13;"
  else String.singleton c

/-- Escape a character for a double-quoted XML attribute value as lxml's
serializer does. -/
def escXmlAttrChar (c : Char) : String :=
  if c = '&' then "&amp;"
  else if c = '<' then "&lt;"
  else if c = '"' then "&quot;"
  else if c = '\n' then "&#10;"
  else if c = '\t' then "&#9;"
  else if c = '\r' then "&#13;"
  else String.singleton c

/-- Escape XML text content. -/
def escXmlText (s : String) : String :=
  String.join (s.data.map escXmlTextChar)

/-- Escape an XML attribute value. -/
def escXmlAttr (s : String) : String :=
  String.join (s.data.map escXmlAttrChar)

/-- The serialization `etree.tostring(node, encoding="unicode")`, with the
node's tail included when `withTail` is true (lxml self-closes childless,
textless elements). -/
def serializeXml (withTail : Bool) : XmlNode → String
  | .mk tag attrib text children tail =>
    let attrs := String.join (attrib.map fun kv => " " ++ kv.1 ++ "=\"" ++ escXmlAttr kv.2 ++ "\"")
    let inner :=
      (match text with
       | none => ""
       | some t => escXmlText t) ++
        String.join (children.attach.map fun c => serializeXml true c.1)
    let core :=
      if text.isNone && children.isEmpty then "<" ++ tag ++ attrs ++ "/>"
      else "<" ++ tag ++ attrs ++ ">" ++ inner ++ "</" ++ tag ++ ">"
    core ++ (if withTail then (match tail with | none => "" | some t => escXmlText t) else "")
termination_by x => sizeOf x
decreasing_by
  simp_wf
  have := List.sizeOf_lt_of_mem c.2
  omega

/-- Helper `stringify_children` (`html.py` lines 137–164, `poll.py` lines
137–164): the contents of an element without its outer tags — its text
followed by `etree.tostring(child, with_tail=True)` for each child. -/
def stringify_children (node : XmlNode) : String :=
  (match node.text with
   | none => ""
   | some t => t) ++
    String.join (node.children.map (serializeXml true))

/-- Boolean set equality of attribute-name lists. -/
def sameSet (xs ys : List String) : Bool :=
  xs.all (ys.contains ·) && ys.all (xs.contains ·)

/-- Pointer classification `is_pointer_tag` (`html.py` lines 175–196,
`poll.py` lines 41–62, identical code): no child elements, no
non-whitespace text, and the attribute-name set exactly `{url_name}`
(`{url_name, course, org}` for a `course` tag). -/
def is_pointer_tag (xml_obj : XmlNode) : Bool :=
  let expected_attr : List String :=
    if xml_obj.tag ≠ "course" then ["url_name"] else ["url_name", "course", "org"]
  let actual_attr := akeys xml_obj.attrib
  let has_text :=
    match xml_obj.text with
    | none => false
    | some t => decide (0 < t.trim.length)
  xml_obj.children.length = 0 && sameSet actual_attr expected_attr && !has_text

/-- Helper `name_to_pathname`: replace every `:` with `/`. -/
def name_to_pathname (name : String) : String :=
  String.mk (name.data.map fun c => if c = ':' then '/' else c)

/-- Content of a file in the resource store: either bytes that parse as an
XML document with this root, or text that is not well-formed XML. -/
inductive FileContent where
  | xmlDoc (x : XmlNode)
  | rawText (s : String)

/-- Resource store (`system.resources_fs`): mapping from path to content. -/
def FS : Type := List (String × FileContent)

/-- Store membership, `fs.exists(path)`. -/
def fsExists (fs : FS) (p : String) : Bool :=
  amem fs p

/-- Open a file and parse it with `cls.file_to_xml` (`etree.parse` with the
EDX parser): missing files raise `ResourceNotFound`, non-XML content an
`XMLSyntaxError`; both surface here as the error string that `load_file`
chains. -/
def fsReadXml (fs : FS) (p : String) : Except String XmlNode :=
  match alookup fs p with
  | none => .error ("resource " ++ p ++ " not found")
  | some (.xmlDoc x) => .ok x
  | some (.rawText _) => .error ("XMLSyntaxError while parsing " ++ p)

/-- Read a file as text (`fs.open(path).read()`): a stored XML document
reads back as its serialization. -/
def fsReadText (fs : FS) (p : String) : Except String String :=
  match alookup fs p with
  | none => .error ("resource " ++ p ++ " not found")
  | some (.rawText s) => .ok s
  | some (.xmlDoc x) => .ok (serializeXml false x)

/-- A raised Python exception: its message and, when the raise chained an
original exception (`raise ... from err` or an implicit context), that
original error's message. -/
structure PyErr where
  message : String
  cause : Option String

/-- Loader `load_file` (`html.py` lines 613–626, `poll.py` lines 491–504,
identical code): open `filepath` in the store and parse it; any failure is
re-raised as an exception whose message names the attempted path and the
owning definition id, chained to the original error. -/
def load_file (filepath : String) (fs : FS) (def_id : String) : Except PyErr XmlNode :=
  match fsReadXml fs filepath with
  | .ok x => .ok x
  | .error err =>
    .error { message := "Unable to load file contents at path " ++ filepath ++
                        " for item " ++ def_id ++ ": " ++ err,
             cause := some err }

/-- Static strip-list `metadata_to_strip`, identical in both classes
(`html.py` lines 304–324, `poll.py` lines 209–229). -/
def metadata_to_strip : List String :=
  ["data_dir", "tabs", "grading_policy", "discussion_blackouts",
   "course", "org", "url_name", "filename", "xml_attributes", "x-is-pointer-node"]

/-- Static `metadata_to_export_to_policy`, identical in both classes. -/
def metadata_to_export_to_policy : List String :=
  ["discussion_topics"]

/-- Static per-category `metadata_to_not_to_clean`, identical in both
classes: only category `video` protects `sub` and `transcripts`. -/
def metadata_to_not_to_clean (category : String) : List String :=
  if category = "video" then ["sub", "transcripts"] else []

/-- Path builder `_format_filepath`: `{category}/{name}.{extension}` with
the static `filename_extension = "xml"` of both classes. -/
def format_filepath (category name : String) : String :=
  category ++ "/" ++ name ++ ".xml"

/-- A materialized block instance: identity (url_name/category and, for
course roots, org and course from its location), the explicitly-set
field values, and the child list.  Fields not in `fieldsSet` hold their
class default. -/
structure Block where
  url_name : String
  category : String
  org : String
  course : String
  run : String
  fieldsSet : List (String × JVal)
  children : List String

/-- Value of a declared field on a block: the explicitly-set value, else
the class default. -/
def Block.fieldVal (defaults : String → JVal) (b : Block) (name : String) : JVal :=
  (alookup b.fieldsSet name).getD (defaults name)

/-- Shared `clean_metadata_from_xml` (`html.py` lines 589–601, `poll.py`
lines 466–479, identical code): delete every attribute named for a
settings-scope declared field that is not excluded. -/
def clean_metadata_from_xml (fields : List (String × FieldSpec)) (excluded_fields : List String)
    (xml_object : XmlNode) : XmlNode :=
  XmlNode.mk xml_object.tag
    (xml_object.attrib.filter fun kv =>
      !(match alookup fields kv.1 with
        | some f => f.scope = FScope.settings && !(excluded_fields.contains kv.1)
        | none => false))
    xml_object.text xml_object.children xml_object.tail

/-- Set `metadata["xml_attributes"][k] = v` on a metadata mapping.  The
mappings this layer builds always carry a dict under `"xml_attributes"`
(`load_metadata` initializes it), so the fallthrough is unreachable. -/
def setInBag (metadata : List (String × JVal)) (k : String) (v : JVal) : List (String × JVal) :=
  match alookup metadata "xml_attributes" with
  | some (.obj bag) => aset metadata "xml_attributes" (.obj (aset bag k v))
  | _ => metadata

/-- Shared `load_metadata` (`html.py` lines 702–720, `poll.py` lines
543–560, identical code): walk the attributes in document order; skip the
strip-list; type-deserialize names of declared fields; route anything else
verbatim into the `xml_attributes` bag, which is always present. -/
def load_metadata (fields : List (String × FieldSpec)) (xml_object : XmlNode) :
    List (String × JVal) :=
  xml_object.attrib.foldl
    (fun metadata kv =>
      if metadata_to_strip.contains kv.1 then metadata
      else
        match alookup fields kv.1 with
        | none => setInBag metadata kv.1 (.str kv.2)
        | some f => aset metadata kv.1 (deserialize_field f kv.2))
    [("xml_attributes", .obj [])]

/-- Shared `apply_policy` (`html.py` lines 722–734, `poll.py` lines
562–574, identical code): overlay the policy mapping onto metadata, keys
without a declared field going into the `xml_attributes` bag. -/
def apply_policy (fields : List (String × FieldSpec)) (metadata : List (String × JVal))
    (policy : List (String × JVal)) : List (String × JVal) :=
  policy.foldl
    (fun md kv =>
      if (alookup fields kv.1).isNone then setInBag md kv.1 kv.2
      else aset md kv.1 kv.2)
    metadata

/-- Declared fields of `PollBlock` in declaration order (`poll.py` lines
175–207), with scopes and `from_json` behaviours. -/
def pollFields : List (String × FieldSpec) :=
  [("display_name", { scope := .settings, from_json := stringFromJson }),
   ("voted", { scope := .userState, from_json := booleanFromJson }),
   ("poll_answer", { scope := .userState, from_json := stringFromJson }),
   ("poll_answers", { scope := .userStateSummary, from_json := dictFromJson }),
   ("answers", { scope := .content, from_json := listFromJson }),
   ("question", { scope := .content, from_json := stringFromJson }),
   ("xml_attributes", { scope := .settings, from_json := dictFromJson })]

/-- Class defaults of `PollBlock`'s declared fields. -/
def pollDefaults (name : String) : JVal :=
  if name = "display_name" then .str "poll_question"
  else if name = "voted" then .bool false
  else if name = "poll_answer" then .str ""
  else if name = "poll_answers" then .obj []
  else if name = "answers" then .arr []
  else if name = "question" then .str ""
  else if name = "xml_attributes" then .obj []
  else .null

/-- Remove the first `meta` child, as `xml_object.remove(meta)` does. -/
def removeFirstMeta : List XmlNode → List XmlNode
  | [] => []
  | c :: rest => if c.tag = "meta" then rest else c :: removeFirstMeta rest

/-- Poll's `_get_metadata_from_xml` (`poll.py` lines 429–440): find the
first `meta` child, return its text and the tree with that child removed;
`none` models both "no meta child" (Python returns `""`) and a meta child
with `text = None`, which are equally falsy downstream. -/
def get_metadata_from_xml (xml_object : XmlNode) : Option String × XmlNode :=
  match xml_object.children.find? (fun c => c.tag = "meta") with
  | none => (none, xml_object)
  | some meta =>
    (meta.text,
     XmlNode.mk xml_object.tag xml_object.attrib xml_object.text
       (removeFirstMeta xml_object.children) xml_object.tail)

/-- Truthiness of the optional definition-metadata text (`if dmdata:`). -/
def truthyStr : Option String → Bool
  | none => false
  | some s => s ≠ ""

namespace PollBlock

/-- Poll's `definition_from_xml` (`poll.py` lines 442–464): require at
least one `answer` child; collect `{id, text}` for each answer child whose
`id` attribute is truthy (present and non-empty); remove every answer
child (lxml removal takes the element's tail with it) and take the
remaining markup, via `stringify_children`, as the question. -/
def definition_from_xml (xml_object : XmlNode) :
    Except String (List (String × JVal) × List String) :=
  if (xml_object.children.filter (fun c => c.tag = "answer")).length = 0 then
    .error "Poll_question definition must include at least one answer tag"
  else
    let found := xml_object.children.filter (fun c => c.tag = "answer")
    let answers :=
      found.foldl
        (fun acc c =>
          match c.get "id" with
          | some i =>
            if i ≠ "" then
              acc ++ [JVal.obj [("id", .str i), ("text", .str (stringify_children c))]]
            else acc
          | none => acc)
        []
    let remaining :=
      XmlNode.mk xml_object.tag xml_object.attrib xml_object.text
        (xml_object.children.filter (fun c => c.tag ≠ "answer")) xml_object.tail
    .ok ([("answers", .arr answers), ("question", .str (stringify_children remaining))], [])

/-- Poll's `load_definition` (`poll.py` lines 506–540).  With a `filename`
attribute the definition tree is loaded from `{tag}/{filename}.xml` and the
pointer node's attributes are copied over it; otherwise the node itself is
the definition.  Then extract the `meta` override text, clean
settings-field attributes, build the poll definition, and record
`definition_metadata` (when truthy) and the `filename` pair.  Asides are
modelled as absent (`system.parse_asides` returns none). -/
def load_definition (xml_object : XmlNode) (fs : FS) (def_id : String) :
    Except PyErr (List (String × JVal) × List String) :=
  let fnOpt := xml_object.get "filename"
  let loaded : Except PyErr (XmlNode × String) :=
    match fnOpt with
    | none => .ok (xml_object, "")
    | some filename =>
      let filepath := format_filepath xml_object.tag filename
      match load_file filepath fs def_id with
      | .error e => .error e
      | .ok dx =>
        .ok (XmlNode.mk dx.tag (aupdate dx.attrib xml_object.attrib) dx.text dx.children dx.tail,
             filepath)
  match loaded with
  | .error e => .error e
  | .ok (definition_xml0, filepath) =>
    let gm := get_metadata_from_xml definition_xml0
    let cleaned := clean_metadata_from_xml pollFields [] gm.2
    match definition_from_xml cleaned with
    | .error msg => .error { message := msg, cause := none }
    | .ok (definition0, children) =>
      let definition1 :=
        if truthyStr gm.1 then
          aset definition0 "definition_metadata" (.str (gm.1.getD ""))
        else definition0
      let definition2 :=
        aset definition1 "filename"
          (.arr [.str filepath, match fnOpt with | some f => .str f | none => .null])
      .ok (definition2, children)

/-- Poll's `load_definition_xml` (`poll.py` lines 644–652): resolve the
pointer target `{tag}/{url_name with : replaced}.xml` and load it. -/
def load_definition_xml (node : XmlNode) (fs : FS) (def_id : String) :
    Except PyErr (XmlNode × String) :=
  match node.get "url_name" with
  | none => .error { message := "AttributeError: url_name is None", cause := none }
  | some u =>
    let filepath := format_filepath node.tag (name_to_pathname u)
    match load_file filepath fs def_id with
    | .error e => .error e
    | .ok dx => .ok (dx, filepath)

/-- Definition-metadata overlay step of poll's `parse_xml` (`poll.py`
lines 601–610): load the attribute metadata, then, when the definition
carries truthy `definition_metadata` text, record it raw and try to merge
its JSON parse into the metadata, recording the error string under
`definition_metadata_err` instead of raising when the parse (or the
dict update of a non-dict result) fails. -/
def parse_metadata (definition_xml : XmlNode) (definition : List (String × JVal)) :
    List (String × JVal) :=
  let metadata := load_metadata pollFields definition_xml
  match alookup definition "definition_metadata" with
  | some (.str dm) =>
    if dm ≠ "" then
      let md1 := aset metadata "definition_metadata_raw" (.str dm)
      match json_loads dm with
      | .ok (.obj kvs) => aupdate md1 kvs
      | .ok _ =>
        aset md1 "definition_metadata_err"
          (.str "TypeError: metadata update requires a mapping")
      | .error e => aset md1 "definition_metadata_err" (.str e)
    else metadata
  | _ => metadata

/-- Field-materialization loop of poll's `parse_xml` (`poll.py` lines
622–634): every key naming a declared field is assigned `from_json` of its
value (a `TypeError` there propagates, failing the import); other keys are
logged and skipped. -/
def set_fields_loop (field_data : List (String × JVal)) (init : Block) : Except PyErr Block :=
  field_data.foldlM
    (fun b kv =>
      match alookup pollFields kv.1 with
      | some f =>
        match f.from_json kv.2 with
        | .ok v => .ok { b with fieldsSet := aset b.fieldsSet kv.1 v }
        | .error _ =>
          .error { message := "TypeError in from_json for field " ++ kv.1, cause := none }
      | none => .ok b)
    init

/-- Poll's `parse_xml` (`poll.py` lines 576–642), with the runtime's aside
machinery modelled as producing no asides: resolve a pointer node to its
definition file, load the definition and metadata, overlay embedded
definition metadata, stash the `filename` pair in the `xml_attributes`
bag, and materialize a fresh block via `set_fields_loop`. -/
def parse_xml (node : XmlNode) (fs : FS) (def_id : String) (url_name category org course : String) :
    Except PyErr Block :=
  let ptr : Except PyErr (XmlNode × Option String) :=
    if is_pointer_tag node then
      match load_definition_xml node fs def_id with
      | .error e => .error e
      | .ok (dx, fp) => .ok (dx, some fp)
    else .ok (node, none)
  match ptr with
  | .error e => .error e
  | .ok (definition_xml, filepathOpt) =>
    match load_definition definition_xml fs def_id with
    | .error e => .error e
    | .ok (definition0, children) =>
      let definition :=
        if is_pointer_tag node then
          aset definition0 "filename"
            (.arr [.str (filepathOpt.getD ""), .str (filepathOpt.getD "")])
        else definition0
      let metadata := parse_metadata definition_xml definition
      let definition := adel definition "aside_children"
      let field_data := aupdate metadata definition
      let fnVal := (alookup definition "filename").getD (.arr [.str "", .null])
      let field_data := setInBag field_data "filename" fnVal
      let field_data := adel field_data "filename"
      let field_data := adel field_data "children"
      let init : Block :=
        { url_name := url_name, category := category, org := org, course := course,
          run := "", fieldsSet := [], children := [] }
      match set_fields_loop field_data init with
      | .error e => .error e
      | .ok b => .ok { b with children := children }

end PollBlock

/-- Characters of the XML 1.0 `Char` production: what `etree.fromstring`
accepts in a document.  A literal control character outside
tab/newline/carriage-return (or `U+FFFE`/`U+FFFF`) makes the parse raise. -/
def xmlValidChar (c : Char) : Bool :=
  c = '\t' || c = '\n' || c = '\r' ||
    (32 ≤ c.toNat && c.toNat ≤ 0xD7FF) ||
    (0xE000 ≤ c.toNat && c.toNat ≤ 0xFFFD) ||
    0x10000 ≤ c.toNat

/-- String every character of which the XML parser accepts. -/
def xmlValid (s : String) : Bool :=
  s.data.all xmlValidChar

/-- XML end-of-line normalization, applied by the parser to all parsed
character data: `\r\n` and lone `\r` both become `\n`. -/
def normEolAux : List Char → List Char
  | '\x0d' :: '\n' :: rest => '\n' :: normEolAux rest
  | '\x0d' :: rest => '\n' :: normEolAux rest
  | c :: rest => c :: normEolAux rest
  | [] => []

/-- End-of-line-normalized form of a string, as text content comes back
out of `etree.fromstring`. -/
def xmlNormEol (s : String) : String :=
  String.mk (normEolAux s.data)

/-- XML attribute-value normalization (CDATA): after end-of-line
normalization, each tab and newline becomes a space. -/
def xmlAttrNorm (s : String) : String :=
  String.mk ((normEolAux s.data).map (fun c => if c = '\t' || c = '\n' then ' ' else c))

/-- Lexicographic `≤` on character lists by code point. -/
def charListLe : List Char → List Char → Bool
  | [], _ => true
  | _ :: _, [] => false
  | c :: cs, d :: ds =>
    if c.toNat < d.toNat then true
    else if d.toNat < c.toNat then false
    else charListLe cs ds

/-- Code-point lexicographic `≤` on strings, Python's string ordering. -/
def strLe (s t : String) : Bool :=
  charListLe s.data t.data

/-- Insert a string into a sorted list (ascending). -/
def insertSorted (s : String) : List String → List String
  | [] => [s]
  | t :: rest => if strLe s t then s :: t :: rest else t :: insertSorted s rest

/-- Python `sorted` on a list of strings. -/
def sortStrings (l : List String) : List String :=
  l.foldr insertSorted []

/-- Set an attribute on an element (`xml_object.set(k, v)`). -/
def XmlNode.setAttr (x : XmlNode) (k v : String) : XmlNode :=
  XmlNode.mk x.tag (aset x.attrib k v) x.text x.children x.tail

/-- View a poll `answers` field value as a list of `(id, text)` pairs of
XML-storable strings.  `none` models the `KeyError` the source raises on a
missing `id`/`text` key and the parse error `etree.fromstring` raises on
an XML-invalid character; a non-string id or text (which the source would
stringify) is outside the model. -/
def answersOfJVal : JVal → Option (List (String × String))
  | .arr xs =>
    xs.mapM fun a =>
      match a with
      | .obj kvs =>
        match alookup kvs "id", alookup kvs "text" with
        | some (.str i), some (.str t) =>
          if xmlValid i && xmlValid t then some (i, t) else none
        | _, _ => none
      | _ => none
  | _ => none

namespace PollBlock

/-- Poll's `definition_to_xml` (`poll.py` lines 727–748).  The source
formats the question into `<poll_question>…</poll_question>` with
`HTML(...).format` — `markupsafe.Markup.format`, which escapes the
question's `&<>"'` — and re-parses with `etree.fromstring`, so any
XML-valid question (markup included) comes back with only the parser's
end-of-line normalization applied; each `<answer id=…>text</answer>`
child is likewise escape-formatted and re-parsed, the id additionally
getting XML attribute-value normalization.  `display_name` is set
directly on the element, untouched.  `none` stands for the
parse/`KeyError` failures the source raises on an XML-invalid character
or a malformed answer entry; a non-string question, display_name, or
answer field is outside the model. -/
def definition_to_xml (b : Block) : Option XmlNode :=
  match b.fieldVal pollDefaults "question", b.fieldVal pollDefaults "display_name" with
  | .str q, .str dn =>
    if xmlValid q then
      match answersOfJVal (b.fieldVal pollDefaults "answers") with
      | some ans =>
        some (XmlNode.mk "poll_question"
          [("display_name", dn)]
          (if xmlNormEol q = "" then none else some (xmlNormEol q))
          (ans.map fun a =>
            XmlNode.mk "answer" [("id", xmlAttrNorm a.1)]
              (if xmlNormEol a.2 = "" then none else some (xmlNormEol a.2)) [] none)
          none)
      | none => none
    else none
  | _, _ => none

/-- Poll's `add_xml_to_node` (`poll.py` lines 658–725), with the runtime's
asides modelled as absent: build the definition element, clean
settings-field attributes, retag to the category, re-emit explicitly-set
non-stripped settings fields (sorted) and the `xml_attributes` bag, copy
everything onto the destination node, and ensure `url_name` (plus
`org`/`course` for course roots).  Returns the destination node's final
state; `none` models an exception escaping `definition_to_xml` or a
non-dict `xml_attributes` value. -/
def add_xml_to_node (b : Block) : Option XmlNode :=
  match definition_to_xml b with
  | none => none
  | some xml0 =>
    let not_to_clean := metadata_to_not_to_clean b.category
    let xml1 := clean_metadata_from_xml pollFields not_to_clean xml0
    let xml2 := XmlNode.mk b.category xml1.attrib xml1.text xml1.children xml1.tail
    let setSettings :=
      (pollFields.filter fun nf => nf.2.scope = FScope.settings && amem b.fieldsSet nf.1).map (·.1)
    let emit :=
      (sortStrings setSettings).filter fun n =>
        !metadata_to_strip.contains n && !metadata_to_export_to_policy.contains n &&
          !not_to_clean.contains n
    let xml3 :=
      emit.foldl (fun x n => x.setAttr n (poll_serialize_field (b.fieldVal pollDefaults n))) xml2
    match b.fieldVal pollDefaults "xml_attributes" with
    | .obj bag =>
      let xml4 :=
        bag.foldl
          (fun x kv =>
            if metadata_to_strip.contains kv.1 then x
            else x.setAttr kv.1 (poll_serialize_field kv.2))
          xml3
      let node1 :=
        match xml4.get "url_name" with
        | none => xml4.setAttr "url_name" b.url_name
        | some u => if u = "" then xml4.setAttr "url_name" b.url_name else xml4
      let node2 :=
        if b.category = "course" then (node1.setAttr "org" b.org).setAttr "course" b.course
        else node1
      some node2
    | _ => none

end PollBlock

/-- Declared fields of `HtmlBlock` in declaration order (`html.py` lines
268–303), with scopes and `from_json` behaviours. -/
def htmlFields : List (String × FieldSpec) :=
  [("display_name", { scope := .settings, from_json := stringFromJson }),
   ("data", { scope := .content, from_json := stringFromJson }),
   ("source_code", { scope := .settings, from_json := stringFromJson }),
   ("use_latex_compiler", { scope := .settings, from_json := booleanFromJson }),
   ("editor", { scope := .settings, from_json := stringFromJson }),
   ("xml_attributes", { scope := .settings, from_json := dictFromJson })]

/-- Class defaults of `HtmlBlock`'s declared fields. -/
def htmlDefaults (name : String) : JVal :=
  if name = "display_name" then .str "Text"
  else if name = "data" then .str ""
  else if name = "source_code" then .null
  else if name = "use_latex_compiler" then .bool false
  else if name = "editor" then .str "visual"
  else if name = "xml_attributes" then .obj []
  else .null

/-- Split a character list on `/`, like Python `s.split("/")`. -/
def splitSlashAux (cur : List Char) : List Char → List String
  | [] => [String.mk cur.reverse]
  | c :: cs =>
    if c = '/' then String.mk cur.reverse :: splitSlashAux [] cs
    else splitSlashAux (c :: cur) cs

/-- Separator-split segments of a path. -/
def splitSlash (s : String) : List String :=
  splitSlashAux [] s.data

/-- Rejoin path segments with `/`. -/
def joinSlash : List String → String
  | [] => ""
  | [s] => s
  | s :: rest => s ++ "/" ++ joinSlash rest

/-- Python `path(s).dirname()`: everything before the last `/`. -/
def dirnamePath (s : String) : String :=
  joinSlash (splitSlash s).dropLast

/-- Python `path(s).basename()`: everything after the last `/`. -/
def basenamePath (s : String) : String :=
  ((splitSlash s).getLast? ).getD s

/-- Boolean suffix test on strings (Python `str.endswith`). -/
def strEndsWith (s suffix : String) : Bool :=
  List.isSuffixOf suffix.data s.data

/-- Drop the last `n` characters (Python `s[:-n]`). -/
def strDropRight (s : String) (n : Nat) : String :=
  String.mk (s.data.take (s.data.length - n))

/-- The `while os.sep in filepath` walk of `backcompat_paths`: collect the
path, then drop through the first separator, until no separator is left. -/
def walkCandidates (s : String) : List String :=
  go (splitSlash s)
where
  /-- Walk over the separator-split segments. -/
  go : List String → List String
    | [] => []
    | [_] => []
    | seg :: rest => joinSlash (seg :: rest) :: go rest

namespace HtmlBlock

/-- Html's `backcompat_paths` (`html.py` lines 422–441): rewrite
`.html.xml`/`.html.html` suffixes, walk up path segments, and add `.html`
variants of `.xml` candidates. -/
def backcompat_paths (filepath : String) : List String :=
  let fp1 :=
    if strEndsWith filepath ".html.xml" then strDropRight filepath 9 ++ ".html" else filepath
  let fp2 := if strEndsWith fp1 ".html.html" then strDropRight fp1 5 else fp1
  let candidates := walkCandidates fp2
  let new_candidates :=
    (candidates.filter (fun c => strEndsWith c ".xml")).map fun c => strDropRight c 4 ++ ".html"
  candidates ++ new_candidates

/-- Html's `load_definition` (`html.py` lines 634–700).  Without a
`filename` attribute the definition is the cleaned node's inner markup.
With one, the content path is `{dirname of html/{block_id with : replaced}}
/{filename}.html`; when that file does not exist the first existing
`backcompat_paths` candidate replaces it; the file is then read as text
(an unparseable-html warning is logged but has no effect and is not
modelled), and a `ResourceNotFound` is re-raised as an exception naming
the path. -/
def load_definition (xml_object : XmlNode) (fs : FS) (location_block_id : String) :
    Except PyErr (List (String × JVal) × List String) :=
  match xml_object.get "filename" with
  | none =>
    let definition_xml := clean_metadata_from_xml htmlFields [] xml_object
    .ok ([("data", .str (stringify_children definition_xml))], [])
  | some filename =>
    let pointer_path := "html/" ++ name_to_pathname location_block_id
    let base := dirnamePath pointer_path
    let filepath0 := base ++ "/" ++ filename ++ ".html"
    let filepath :=
      if fsExists fs filepath0 then filepath0
      else
        match (backcompat_paths filepath0).find? (fun c => fsExists fs c) with
        | some c => c
        | none => filepath0
    match fsReadText fs filepath with
    | .ok html =>
      .ok ([("data", .str html), ("filename", .arr [.str filepath, .str filename])], [])
    | .error err =>
      .error { message := "Unable to load file contents at path " ++ filepath ++ ": " ++ err ++ " ",
               cause := some err }

/-- Html's `load_definition_xml` (`html.py` lines 850–858): resolve the
pointer target `{tag}/{url_name with : replaced}.xml` and load it via
`load_file`; no fallback paths are consulted. -/
def load_definition_xml (node : XmlNode) (fs : FS) (def_id : String) :
    Except PyErr (XmlNode × String) :=
  match node.get "url_name" with
  | none => .error { message := "AttributeError: url_name is None", cause := none }
  | some u =>
    let filepath := format_filepath node.tag (name_to_pathname u)
    match load_file filepath fs def_id with
    | .error e => .error e
    | .ok dx => .ok (dx, filepath)

/-- The `definition_metadata` overlay of html's `parse_xml` (`html.py`
lines 789–797, textually identical in poll): when the definition carries
truthy embedded metadata text, record it raw and merge its JSON parse into
the metadata; on a parse failure (or a non-mapping result, whose dict
update raises `TypeError`) record the error string under
`definition_metadata_err` instead of raising. -/
def overlay_definition_metadata (metadata definition : List (String × JVal)) :
    List (String × JVal) :=
  match alookup definition "definition_metadata" with
  | some (.str dm) =>
    if dm ≠ "" then
      let md1 := aset metadata "definition_metadata_raw" (.str dm)
      match json_loads dm with
      | .ok (.obj kvs) => aupdate md1 kvs
      | .ok _ =>
        aset md1 "definition_metadata_err"
          (.str "TypeError: metadata update requires a mapping")
      | .error e => aset md1 "definition_metadata_err" (.str e)
    else metadata
  | _ => metadata

/-- Metadata assembly of html's `parse_xml` (`html.py` lines 787–804):
`load_metadata` over the definition node's attributes, then the embedded
`definition_metadata` overlay, then `apply_policy` last. -/
def merge_metadata (definition_xml : XmlNode) (definition : List (String × JVal))
    (policy : List (String × JVal)) : List (String × JVal) :=
  apply_policy htmlFields
    (overlay_definition_metadata (load_metadata htmlFields definition_xml) definition) policy

/-- Field-materialization loop of html's `parse_xml` (`html.py` lines
806–816): `xml_attributes` merges onto the block's bag after stashing the
`filename` pair; names of declared fields are assigned; anything else is
logged and skipped. -/
def set_fields (field_data : List (String × JVal)) (definition : List (String × JVal))
    (init : Block) : Block :=
  field_data.foldl
    (fun b kv =>
      if kv.1 = "xml_attributes" then
        match kv.2 with
        | .obj bag =>
          let bag2 := aset bag "filename" ((alookup definition "filename").getD (.arr [.str "", .null]))
          let cur :=
            match b.fieldVal htmlDefaults "xml_attributes" with
            | .obj c => c
            | _ => []
          { b with fieldsSet := aset b.fieldsSet "xml_attributes" (.obj (aupdate cur bag2)) }
        | _ => b
      else if amem htmlFields kv.1 then { b with fieldsSet := aset b.fieldsSet kv.1 kv.2 }
      else b)
    init

/-- Html's `parse_xml` (`html.py` lines 736–823), with the runtime's aside
machinery modelled as producing no asides: resolve a pointer node, load
the definition (through the side .html file when a `filename` attribute is
present), merge the three metadata layers, and materialize a fresh block. -/
def parse_xml (node : XmlNode) (fs : FS) (policy : List (String × JVal)) (def_id : String)
    (url_name category org course location_block_id : String) : Except PyErr Block :=
  let ptr : Except PyErr (XmlNode × Option String) :=
    if is_pointer_tag node then
      match load_definition_xml node fs def_id with
      | .error e => .error e
      | .ok (dx, fp) => .ok (dx, some fp)
    else .ok (node, none)
  match ptr with
  | .error e => .error e
  | .ok (definition_xml, filepathOpt) =>
    match load_definition definition_xml fs location_block_id with
    | .error e => .error e
    | .ok (definition0, children) =>
      let definition :=
        if is_pointer_tag node then
          aset definition0 "filename"
            (.arr [.str (filepathOpt.getD ""), .str (filepathOpt.getD "")])
        else definition0
      let metadata := merge_metadata definition_xml definition policy
      let definition := adel definition "aside_children"
      let field_data := aupdate metadata definition
      let init : Block :=
        { url_name := url_name, category := category, org := org, course := course,
          run := "", fieldsSet := [], children := [] }
      let b := set_fields field_data definition init
      .ok { b with children := children }

end HtmlBlock

/-- Embed a JSON-compatible value into the serializer's value universe
(block field values contain no key or datetime objects). -/
def JVal.toEVal : JVal → EVal
  | .null => .null
  | .bool b => .bool b
  | .int n => .int n
  | .float m e => .float m e
  | .str s => .str s
  | .arr xs => .arr (xs.attach.map fun x => JVal.toEVal x.1)
  | .obj kvs => .obj (kvs.attach.map fun kv => (kv.1.1, JVal.toEVal kv.1.2))
decreasing_by
  all_goals simp_wf
  · have := List.sizeOf_lt_of_mem x.2
    omega
  · rcases kv with ⟨⟨k, v⟩, hk⟩
    have := List.sizeOf_lt_of_mem hk
    simp only [Prod.mk.sizeOf_spec] at this
    simp only []
    omega

namespace HtmlBlock

/-- Html's `definition_to_xml` (`html.py` lines 931–952): write the block's
`data` to `{category}/{url_name with : replaced}.html` in the export store
and return the element `<html filename="{basename}"/>`; a non-string
`data` value would raise at `self.data.encode`. -/
def definition_to_xml (b : Block) (fs : FS) : Option (FS × XmlNode) :=
  match b.fieldVal htmlDefaults "data" with
  | .str dataStr =>
    let pathname := name_to_pathname b.url_name
    let filepath := b.category ++ "/" ++ pathname ++ ".html"
    let fs2 := aset fs filepath (FileContent.rawText dataStr)
    let relname := basenamePath pathname
    some (fs2, XmlNode.mk "html" [("filename", relname)] none [] none)
  | _ => none

/-- Html's `add_xml_to_node` (`html.py` lines 874–929), with the runtime's
asides modelled as absent.  Since `export_to_file()` is true for html
blocks, the assembled definition element is written to
`{category}/{url_name}.xml` (`{category}/{run}.xml` for course roots) in
the export store, and the destination node only gets its tag retagged and
`url_name` (plus `org`/`course` for course roots) ensured.  Returns the
updated store and the destination node's final state. -/
def add_xml_to_node (b : Block) (fs : FS) (node : XmlNode) : Option (FS × XmlNode) :=
  match definition_to_xml b fs with
  | none => none
  | some (fs1, xml0) =>
    let not_to_clean := metadata_to_not_to_clean b.category
    let xml1 := clean_metadata_from_xml htmlFields not_to_clean xml0
    let xml2 := XmlNode.mk b.category xml1.attrib xml1.text xml1.children xml1.tail
    let node1 := XmlNode.mk b.category node.attrib node.text node.children node.tail
    let setSettings :=
      (htmlFields.filter fun nf => nf.2.scope = FScope.settings && amem b.fieldsSet nf.1).map (·.1)
    let emit :=
      (sortStrings setSettings).filter fun n =>
        !metadata_to_strip.contains n && !metadata_to_export_to_policy.contains n &&
          !not_to_clean.contains n
    let xml3 :=
      emit.foldl (fun x n => x.setAttr n (serialize_field (JVal.toEVal (b.fieldVal htmlDefaults n))))
        xml2
    match b.fieldVal htmlDefaults "xml_attributes" with
    | .obj bag =>
      let xml4 :=
        bag.foldl
          (fun x kv =>
            if metadata_to_strip.contains kv.1 then x
            else x.setAttr kv.1 (serialize_field (JVal.toEVal kv.2)))
          xml3
      let url_path := name_to_pathname b.url_name
      let filepath :=
        format_filepath b.category (if b.category = "course" then b.run else url_path)
      let fs2 := aset fs1 filepath (FileContent.xmlDoc xml4)
      let node2 :=
        match node1.get "url_name" with
        | none => node1.setAttr "url_name" b.url_name
        | some u => if u = "" then node1.setAttr "url_name" b.url_name else node1
      let node3 :=
        if b.category = "course" then (node2.setAttr "org" b.org).setAttr "course" b.course
        else node2
      some (fs2, node3)
    | _ => none

end HtmlBlock

/-- An XML node with one more attribute binding appended. -/
def addAttr (n : XmlNode) (k v : String) : XmlNode :=
  XmlNode.mk n.tag (n.attrib ++ [(k, v)]) n.text n.children n.tail

/-- An XML node with an attribute deleted (`del n.attrib[k]`). -/
def delAttr (n : XmlNode) (k : String) : XmlNode :=
  XmlNode.mk n.tag (adel n.attrib k) n.text n.children n.tail

/-- The attribute-name set `is_pointer_tag` expects for a tag. -/
def expectedPointerAttrs (tag : String) : List String :=
  if tag ≠ "course" then ["url_name"] else ["url_name", "course", "org"]

/-- The record `definition_from_xml` collects for one answer child, if any:
present for a non-empty `id` attribute. -/
def answerPick (c : XmlNode) : Option JVal :=
  match c.get "id" with
  | some i =>
    if i ≠ "" then some (JVal.obj [("id", .str i), ("text", .str (stringify_children c))])
    else none
  | none => none

/-- Answers a poll definition node yields, stated directly over the node's
children. -/
def pollAnswersSpec (x : XmlNode) : List JVal :=
  x.children.filterMap fun c => if c.tag = "answer" then answerPick c else none

/-- Value stored in the `xml_attributes` bag of a metadata mapping. -/
def bagLookup (metadata : List (String × JVal)) (k : String) : Option JVal :=
  match alookup metadata "xml_attributes" with
  | some (.obj bag) => alookup bag k
  | _ => none

/-- A metadata mapping carrying a dict under `xml_attributes`, as every
mapping this layer builds does. -/
def bagPresent (metadata : List (String × JVal)) : Prop :=
  ∃ bag, alookup metadata "xml_attributes" = some (.obj bag)

/-- One attribute step of `load_metadata`. -/
def lmStep (fields : List (String × FieldSpec)) (metadata : List (String × JVal))
    (kv : String × String) : List (String × JVal) :=
  if metadata_to_strip.contains kv.1 then metadata
  else
    match alookup fields kv.1 with
    | none => setInBag metadata kv.1 (.str kv.2)
    | some f => aset metadata kv.1 (deserialize_field f kv.2)

/-- The attribute fold of `load_metadata`, exposed for induction. -/
def lmFold (fields : List (String × FieldSpec)) (l : List (String × String))
    (acc : List (String × JVal)) : List (String × JVal) :=
  l.foldl (lmStep fields) acc

/-- One policy-overlay step of `apply_policy`. -/
def apStep (fields : List (String × FieldSpec)) (md : List (String × JVal))
    (kv : String × JVal) : List (String × JVal) :=
  if (alookup fields kv.1).isNone then setInBag md kv.1 kv.2
  else aset md kv.1 kv.2

/-- Concrete C4 scenario: definition node with XML attribute x="1" (and
display_name="1"), embedded definition metadata assigning 2 to both keys,
and a policy assigning 3 to both. -/
def c4_node : XmlNode := XmlNode.mk "html" [("x", "1"), ("display_name", "1")] none [] none

/-- Concrete C4 definition record carrying the embedded metadata text. -/
def c4_definition : List (String × JVal) :=
  [("data", .str "body"), ("definition_metadata", .str "\x7b\"x\": 2, \"display_name\": 2\x7d")]

/-- Concrete C4 policy overlay. -/
def c4_policy : List (String × JVal) := [("x", .int 3), ("display_name", .int 3)]

/-- Fresh block for the concrete C4 materialization. -/
def c4_init : Block :=
  { url_name := "u", category := "html", org := "", course := "", run := "",
    fieldsSet := [], children := [] }

/-- Poll definition node with a malformed `meta` child for C9: the meta
text is not valid JSON. -/
def c9_node_with_meta : XmlNode :=
  XmlNode.mk "poll_question" [("display_name", "P")] none
    [XmlNode.mk "meta" [] (some "\x7bbad json") [] none,
     XmlNode.mk "answer" [("id", "y")] (some "Yes") [] none] none

/-- The same poll definition node with the `meta` child removed. -/
def c9_node_without_meta : XmlNode :=
  XmlNode.mk "poll_question" [("display_name", "P")] none
    [XmlNode.mk "answer" [("id", "y")] (some "Yes") [] none] none

/-- C8 counterexample store: the backcompat candidate `block/x1.html`
exists, the primary pointer target `block/x1.xml` does not. -/
def c8_fs : FS := [("block/x1.html", FileContent.rawText "hello")]

/-- C8 pointer node `<block url_name="x1"/>`. -/
def c8_node : XmlNode := XmlNode.mk "block" [("url_name", "x1")] none [] none

theorem alookup_aset_self {α : Type} (l : List (String × α)) (k : String) (v : α) :
    alookup (aset l k v) k = some v := by
  induction l with
  | nil => simp [aset, alookup]
  | cons kv rest ih =>
    by_cases h : kv.1 = k
    · simp [aset, alookup, h]
    · simp only [aset, if_neg h]
      simp [alookup, h, ih]

theorem alookup_aset_ne {α : Type} (l : List (String × α)) (k k' : String) (v : α)
    (h : k' ≠ k) : alookup (aset l k' v) k = alookup l k := by
  induction l with
  | nil => simp [aset, alookup, h]
  | cons kv rest ih =>
    by_cases hk : kv.1 = k'
    · simp only [aset, if_pos hk]
      have hne : ¬ k = k' := fun hh => h hh.symm
      simp [alookup, h, hne, hk]
    · simp only [aset, if_neg hk]
      by_cases hk2 : kv.1 = k
      · simp [alookup, hk2]
      · simp [alookup, hk2, ih]

theorem alookup_eq_none_iff {α : Type} (l : List (String × α)) (k : String) :
    alookup l k = none ↔ k ∉ akeys l := by
  induction l with
  | nil => simp [alookup, akeys]
  | cons kv rest ih =>
    by_cases h : kv.1 = k
    · subst h
      simp [alookup, akeys]
    · have hne : ¬ k = kv.1 := fun hh => h hh.symm
      simp [alookup, h, akeys, ih, hne]

theorem akeys_adel {α : Type} (l : List (String × α)) (k : String) :
    akeys (adel l k) = (akeys l).erase k := by
  induction l with
  | nil => simp [adel, akeys]
  | cons kv rest ih =>
    by_cases h : kv.1 = k
    · subst h
      simp [adel, akeys, List.erase_cons_head]
    · simp only [adel, if_neg h, akeys, List.map_cons, ih]
      rw [List.erase_cons_tail]
      · simp [akeys] at ih
        simp [ih]
      · simp [h]

theorem alookup_adel_self {α : Type} (l : List (String × α)) (k : String)
    (hnd : (akeys l).Nodup) : alookup (adel l k) k = none := by
  rw [alookup_eq_none_iff, akeys_adel]
  exact hnd.not_mem_erase

theorem setAttr_get_self (x : XmlNode) (k v : String) : (x.setAttr k v).get k = some v := by
  cases x
  simp [XmlNode.setAttr, XmlNode.get, XmlNode.attrib, alookup_aset_self]

theorem setAttr_get_ne (x : XmlNode) (k k' v : String) (h : k' ≠ k) :
    (x.setAttr k' v).get k = x.get k := by
  cases x
  simp [XmlNode.setAttr, XmlNode.get, XmlNode.attrib, alookup_aset_ne _ _ _ _ h]

theorem setAttr_tag (x : XmlNode) (k v : String) : (x.setAttr k v).tag = x.tag := by
  cases x; simp [XmlNode.setAttr, XmlNode.tag]

theorem foldl_emitBag_get_not_mem (f : JVal → String) (l : List (String × JVal)) (x : XmlNode)
    (k : String) (h : k ∉ akeys l) :
    (l.foldl (fun x kv => if metadata_to_strip.contains kv.1 then x
                          else x.setAttr kv.1 (f kv.2)) x).get k = x.get k := by
  induction l generalizing x with
  | nil => simp
  | cons kv rest ih =>
    simp only [akeys, List.map_cons, List.mem_cons] at h
    push_neg at h
    simp only [List.foldl_cons]
    rw [ih _ h.2]
    by_cases hs : kv.1 ∈ metadata_to_strip
    · simp [hs]
    · simp [hs, setAttr_get_ne _ _ _ _ (fun hh => h.1 hh.symm)]

theorem foldl_emitBag_get_mem (f : JVal → String) (l : List (String × JVal)) (x : XmlNode)
    (k : String) (v : JVal) (hnd : (akeys l).Nodup) (hv : alookup l k = some v)
    (hs : k ∉ metadata_to_strip) :
    (l.foldl (fun x kv => if metadata_to_strip.contains kv.1 then x
                          else x.setAttr kv.1 (f kv.2)) x).get k = some (f v) := by
  induction l generalizing x with
  | nil => simp [alookup] at hv
  | cons kv rest ih =>
    simp only [akeys, List.map_cons, List.nodup_cons] at hnd
    simp only [List.foldl_cons]
    by_cases h : kv.1 = k
    · subst h
      simp only [alookup, if_pos rfl] at hv
      injection hv with hv
      subst hv
      rw [foldl_emitBag_get_not_mem _ _ _ _ hnd.1]
      simp [hs, setAttr_get_self]
    · simp only [alookup, if_neg h] at hv
      exact ih _ hnd.2 hv

theorem foldl_emitNames_get_not_mem (g : String → String) (names : List String) (x : XmlNode)
    (k : String) (h : k ∉ names) :
    (names.foldl (fun x n => x.setAttr n (g n)) x).get k = x.get k := by
  induction names generalizing x with
  | nil => simp
  | cons n rest ih =>
    simp only [List.mem_cons] at h
    push_neg at h
    simp only [List.foldl_cons]
    rw [ih _ h.2]
    exact setAttr_get_ne _ _ _ _ (fun hh => h.1 hh.symm)

theorem foldl_emitNames_tag (g : String → String) (names : List String) (x : XmlNode) :
    (names.foldl (fun x n => x.setAttr n (g n)) x).tag = x.tag := by
  induction names generalizing x with
  | nil => simp
  | cons n rest ih => simp [List.foldl_cons, ih, setAttr_tag]

theorem contains_iff_mem_str (l : List String) (a : String) :
    l.contains a = true ↔ a ∈ l := by
  simp [List.contains, List.elem_iff]

theorem string_trim_empty_of_len (t : String) (h : t.trim.length = 0) : t.trim = "" := by
  have hd : t.trim.data.length = 0 := h
  have : t.trim.data = [] := List.length_eq_zero.mp hd
  exact String.ext (by simp [this])

theorem sameSet_iff (xs ys : List String) :
    sameSet xs ys = true ↔ (∀ a, a ∈ xs ↔ a ∈ ys) := by
  simp only [sameSet, Bool.and_eq_true, List.all_eq_true, contains_iff_mem_str]
  constructor
  · rintro ⟨h1, h2⟩ a
    exact ⟨fun ha => h1 a ha, fun ha => h2 a ha⟩
  · intro h
    exact ⟨fun a ha => (h a).1 ha, fun a ha => (h a).2 ha⟩

theorem is_pointer_tag_iff (n : XmlNode) :
    is_pointer_tag n = true ↔
      (n.children = [] ∧
       (∀ t, n.text = some t → t.trim = "") ∧
       (∀ a, a ∈ akeys n.attrib ↔ a ∈ expectedPointerAttrs n.tag)) := by
  rw [is_pointer_tag]
  simp only [Bool.and_eq_true, decide_eq_true_eq, List.length_eq_zero, ← sameSet_iff,
    expectedPointerAttrs]
  constructor
  · rintro ⟨⟨h1, h2⟩, h3⟩
    refine ⟨h1, ?_, h2⟩
    intro t ht
    rw [ht] at h3
    simp at h3
    exact string_trim_empty_of_len t (by omega)
  · rintro ⟨h1, h2, h3⟩
    refine ⟨⟨h1, h3⟩, ?_⟩
    cases ht : n.text with
    | none => simp
    | some t =>
      have := h2 t ht
      simp [this]

/-- C2: `is_pointer_tag n` is true exactly when `n` has no child elements,
no non-whitespace text, and its attribute-name set equals `{url_name}`
(`{url_name, course, org}` for a `course` tag); adding an extra attribute,
removing a required one, adding a child, or adding non-whitespace text
each makes it false. -/
theorem C2_is_pointer_tag_exact (n : XmlNode) :
    (is_pointer_tag n = true ↔
      (n.children = [] ∧
       (∀ t, n.text = some t → t.trim = "") ∧
       (∀ a, a ∈ akeys n.attrib ↔ a ∈ expectedPointerAttrs n.tag))) ∧
    (∀ k v, k ∉ expectedPointerAttrs n.tag → is_pointer_tag (addAttr n k v) = false) ∧
    ((akeys n.attrib).Nodup → ∀ a, a ∈ expectedPointerAttrs n.tag →
      is_pointer_tag n = true → is_pointer_tag (delAttr n a) = false) ∧
    (∀ c, is_pointer_tag (XmlNode.mk n.tag n.attrib n.text (c :: n.children) n.tail) = false) ∧
    (∀ t, t.trim ≠ "" →
      is_pointer_tag (XmlNode.mk n.tag n.attrib (some t) n.children n.tail) = false) := by
  obtain ⟨tag, attrib, text, children, tail⟩ := n
  refine ⟨is_pointer_tag_iff _, ?_, ?_, ?_, ?_⟩
  · intro k v hk
    rw [Bool.eq_false_iff]
    intro habs
    have h := (is_pointer_tag_iff _).mp habs
    have hmem : k ∈ akeys (addAttr (XmlNode.mk tag attrib text children tail) k v).attrib := by
      simp [addAttr, XmlNode.attrib, XmlNode.tag, XmlNode.text, XmlNode.children, XmlNode.tail,
        akeys]
    have := (h.2.2 k).mp hmem
    simp only [addAttr, XmlNode.tag] at this
    exact hk this
  · intro hnd a ha hp
    rw [Bool.eq_false_iff]
    intro habs
    have h := (is_pointer_tag_iff _).mp habs
    have hp' := (is_pointer_tag_iff _).mp hp
    have hmem : a ∈ akeys (delAttr (XmlNode.mk tag attrib text children tail) a).attrib :=
      (h.2.2 a).mpr (by simpa [delAttr, XmlNode.tag] using ha)
    simp only [delAttr, XmlNode.attrib, XmlNode.tag, XmlNode.text, XmlNode.children,
      XmlNode.tail, akeys_adel] at hmem
    exact (List.Nodup.not_mem_erase hnd) hmem
  · intro c
    simp [is_pointer_tag, XmlNode.children]
  · intro t ht
    have : 0 < t.trim.length := by
      by_contra hh
      exact ht (string_trim_empty_of_len t (by omega))
    simp [is_pointer_tag, XmlNode.text, this]

/-- Witness for C2 at a concrete pointer node and extra attribute. -/
theorem C2_is_pointer_tag_exact_witness :
    is_pointer_tag (addAttr (XmlNode.mk "html" [("url_name", "x")] none [] none) "data_dir" "d")
      = false :=
  (C2_is_pointer_tag_exact (XmlNode.mk "html" [("url_name", "x")] none [] none)).2.1 "data_dir" "d"
    (by decide)

/-- C3: `deserialize_field` returns the JSON-decoded value when decoding
succeeds and the declared field's `from_json` accepts it; the original raw
string when decoding fails or `from_json` rejects the decoded value; and a
decoded JSON `null` becomes `None` regardless of the declared type.  In
particular a String field deserializes `"3.4"` to the unchanged string and
an Integer field deserializes `"3"` to the integer `3`. -/
theorem C3_deserialize_field_spec :
    (∀ (f : FieldSpec) (s e : String), json_loads s = .error e →
      deserialize_field f s = .str s) ∧
    (∀ (f : FieldSpec) (s : String), json_loads s = .ok .null →
      deserialize_field f s = .null) ∧
    (∀ (f : FieldSpec) (s : String) (v w : JVal), json_loads s = .ok v → v ≠ .null →
      f.from_json v = .ok w → deserialize_field f s = v) ∧
    (∀ (f : FieldSpec) (s : String) (v : JVal), json_loads s = .ok v → v ≠ .null →
      f.from_json v = .error () → deserialize_field f s = .str s) ∧
    deserialize_field StringField "3.4" = .str "3.4" ∧
    deserialize_field IntegerField "3" = .int 3 := by
  refine ⟨?_, ?_, ?_, ?_, by rfl, by rfl⟩
  · intro f s e h
    simp [deserialize_field, h]
  · intro f s h
    simp [deserialize_field, h]
  · intro f s v w h hv hacc
    rw [deserialize_field, h]
    cases v with
    | null => exact absurd rfl hv
    | bool b => simp [hacc]
    | int n => simp [hacc]
    | float m e => simp [hacc]
    | str t => simp [hacc]
    | arr xs => simp [hacc]
    | obj kvs => simp [hacc]
  · intro f s v h hv hrej
    rw [deserialize_field, h]
    cases v with
    | null => exact absurd rfl hv
    | bool b => simp [hrej]
    | int n => simp [hrej]
    | float m e => simp [hrej]
    | str t => simp [hrej]
    | arr xs => simp [hrej]
    | obj kvs => simp [hrej]

/-- Witness for C3: a raw string that is not valid JSON comes back
unchanged, via the first conjunct at a concrete input. -/
theorem C3_deserialize_field_spec_witness :
    deserialize_field StringField "poll_question" = .str "poll_question" :=
  C3_deserialize_field_spec.1 StringField "poll_question" "Expecting value" (by rfl)

/-- C5: loading a pointer target whose file is missing from the resource
store fails with an error whose message names the attempted path and the
owning definition id and whose cause is the original `ResourceNotFound`;
the result is never a silently-defaulted success. -/
theorem C5_load_file_missing (fs : FS) (p def_id : String) (h : alookup fs p = none) :
    load_file p fs def_id =
      .error { message := "Unable to load file contents at path " ++ p ++ " for item " ++
                          def_id ++ ": " ++ ("resource " ++ p ++ " not found"),
               cause := some ("resource " ++ p ++ " not found") } ∧
    ∀ x, load_file p fs def_id ≠ .ok x := by
  have hx : fsReadXml fs p = .error ("resource " ++ p ++ " not found") := by
    simp [fsReadXml, h]
  constructor
  · simp [load_file, hx]
  · intro x
    simp [load_file, hx]

/-- Witness for C5 at an empty store. -/
theorem C5_load_file_missing_witness :
    load_file "poll_question/q1.xml" [] "def-1" =
      .error { message := "Unable to load file contents at path poll_question/q1.xml " ++
                          "for item def-1: resource poll_question/q1.xml not found",
               cause := some "resource poll_question/q1.xml not found" } :=
  (C5_load_file_missing [] "poll_question/q1.xml" "def-1" rfl).1

/-- C7 counterexample: for a datetime whose UTC offset is present and
zero, `serialize_field` emits the plain `isoformat` (ending `+00:00`), not
the `Z`-suffixed form the claim requires; the code appends `Z` only when
`tzinfo` is present but `utcoffset()` is `None`. -/
theorem C7_serialize_field_counterexample :
    serialize_field (.dt ⟨2024, 1, 1, 0, 0, 0, some ⟨some 0⟩⟩) = "2024-01-01T00:00:00+00:00" ∧
    serialize_field (.dt ⟨2024, 1, 1, 0, 0, 0, some ⟨some 0⟩⟩) ≠
      isoformat ⟨2024, 1, 1, 0, 0, 0, some ⟨some 0⟩⟩ ++ "Z" := by
  constructor
  · rfl
  · decide

/-- C7 amended: strings pass through unchanged; a datetime gets `Z`
appended exactly when its tzinfo is present but its `utcoffset()` is
`None` (plain `isoformat` otherwise, including the present-and-zero
case); every other value goes through the extended JSON encoder, which
stringifies opaque key objects via their string form. -/
theorem C7_serialize_field_amended :
    (∀ s, serialize_field (.str s) = s) ∧
    (∀ (d : PyDatetime) (tz : Tzinfo), d.tzinfo = some tz → tz.utcoffsetMinutes = none →
      serialize_field (.dt d) = isoformat d ++ "Z") ∧
    (∀ (d : PyDatetime) (tz : Tzinfo) (o : Int), d.tzinfo = some tz →
      tz.utcoffsetMinutes = some o → serialize_field (.dt d) = isoformat d) ∧
    (∀ d : PyDatetime, d.tzinfo = none → serialize_field (.dt d) = isoformat d) ∧
    (∀ v : EVal, (∀ s, v ≠ .str s) → (∀ d, v ≠ .dt d) → serialize_field v = edx_dumps v) ∧
    (∀ k, edx_dumps (.key k) = json_quote k) := by
  refine ⟨fun s => rfl, ?_, ?_, ?_, ?_, fun k => by simp [edx_dumps]⟩
  · intro d tz h1 h2
    simp [serialize_field, h1, h2]
  · intro d tz o h1 h2
    simp [serialize_field, h1, h2]
  · intro d h
    simp [serialize_field, h]
  · intro v hs hd
    cases v with
    | str s => exact absurd rfl (hs s)
    | dt d => exact absurd rfl (hd d)
    | null => rfl
    | bool b => rfl
    | int n => rfl
    | float m e => rfl
    | arr xs => rfl
    | obj kvs => rfl
    | key s => rfl

/-- Witness for C7's amended statement: a tz-present, offset-None datetime
gets the `Z` suffix. -/
theorem C7_serialize_field_amended_witness :
    serialize_field (.dt ⟨2012, 9, 5, 12, 30, 0, some ⟨none⟩⟩) = "2012-09-05T12:30:00Z" := by
  have h := C7_serialize_field_amended.2.1 ⟨2012, 9, 5, 12, 30, 0, some ⟨none⟩⟩ ⟨none⟩ rfl rfl
  rw [h]
  rfl

theorem foldl_toList_filterMap {α β : Type} (p : α → Option β) (l : List α) (acc : List β) :
    l.foldl (fun a c => a ++ (p c).toList) acc = acc ++ l.filterMap p := by
  induction l generalizing acc with
  | nil => simp
  | cons c rest ih =>
    simp only [List.foldl_cons, List.filterMap_cons]
    cases hp : p c <;> simp [ih]

theorem answer_step_eq :
    (fun (acc : List JVal) (c : XmlNode) =>
      match c.get "id" with
      | some i =>
        if i ≠ "" then
          acc ++ [JVal.obj [("id", .str i), ("text", .str (stringify_children c))]]
        else acc
      | none => acc)
    = fun acc c => acc ++ (answerPick c).toList := by
  funext acc c
  rw [answerPick]
  cases c.get "id" with
  | none => simp
  | some i =>
    by_cases hi : i = "" <;> simp [hi]

theorem filterMap_filter_gen {α β : Type} (q : α → Bool) (p : α → Option β) (l : List α) :
    (l.filter q).filterMap p = l.filterMap (fun c => if q c then p c else none) := by
  induction l with
  | nil => simp
  | cons c rest ih =>
    by_cases h : q c
    · simp [List.filter_cons, h, List.filterMap_cons, ih]
    · simp [List.filter_cons, h, List.filterMap_cons, ih]

/-- C10: poll's `definition_from_xml` raises `ValueError` exactly when the
node has no `answer` child; with answer children present it collects one
`{id, text}` record per answer child with a non-empty `id` attribute, and
the question is the remaining markup after every answer child (with its
tail) is removed. -/
theorem C10_poll_definition_from_xml (x : XmlNode) :
    ((x.children.filter (fun c => c.tag = "answer")) = [] ↔
      PollBlock.definition_from_xml x =
        .error "Poll_question definition must include at least one answer tag") ∧
    ((x.children.filter (fun c => c.tag = "answer")) ≠ [] →
      PollBlock.definition_from_xml x =
        .ok ([("answers", .arr (pollAnswersSpec x)),
              ("question", .str (stringify_children (XmlNode.mk x.tag x.attrib x.text
                (x.children.filter (fun c => c.tag ≠ "answer")) x.tail)))], [])) := by
  by_cases h : (x.children.filter (fun c => c.tag = "answer")) = []
  · constructor
    · constructor
      · intro _
        rw [PollBlock.definition_from_xml]
        simp [h]
      · intro _
        exact h
    · intro hne
      exact absurd h hne
  · have hok : PollBlock.definition_from_xml x =
        .ok ([("answers", .arr (pollAnswersSpec x)),
              ("question", .str (stringify_children (XmlNode.mk x.tag x.attrib x.text
                (x.children.filter (fun c => c.tag ≠ "answer")) x.tail)))], []) := by
      rw [PollBlock.definition_from_xml]
      rw [if_neg (by simpa [List.length_eq_zero] using h)]
      rw [answer_step_eq]
      simp only [foldl_toList_filterMap, filterMap_filter_gen, List.nil_append]
      simp [pollAnswersSpec]
    constructor
    · constructor
      · intro habs
        exact absurd habs h
      · intro habs
        rw [hok] at habs
        exact absurd habs (by simp)
    · intro _
      exact hok

/-- Witness for C10's success branch at a concrete two-answer node. -/
theorem C10_poll_definition_from_xml_witness :
    PollBlock.definition_from_xml
      (XmlNode.mk "poll_question" [] (some "Q?")
        [XmlNode.mk "answer" [("id", "y")] (some "Yes") [] none,
         XmlNode.mk "answer" [] (some "Skipped") [] none] none) =
      .ok ([("answers", .arr [JVal.obj [("id", .str "y"), ("text", .str "Yes")]]),
            ("question", .str "Q?")], []) := by
  have hfil : List.filter (fun c => decide (c.tag = "answer"))
      (XmlNode.mk "poll_question" [] (some "Q?")
        [XmlNode.mk "answer" [("id", "y")] (some "Yes") [] none,
         XmlNode.mk "answer" [] (some "Skipped") [] none] none).children =
      [XmlNode.mk "answer" [("id", "y")] (some "Yes") [] none,
       XmlNode.mk "answer" [] (some "Skipped") [] none] := rfl
  have h := (C10_poll_definition_from_xml
    (XmlNode.mk "poll_question" [] (some "Q?")
      [XmlNode.mk "answer" [("id", "y")] (some "Yes") [] none,
       XmlNode.mk "answer" [] (some "Skipped") [] none] none)).2
    (by rw [hfil]; exact List.cons_ne_nil _ _)
  rw [h]
  rfl

theorem setInBag_eq (acc : List (String × JVal)) (k : String) (v : JVal)
    (bag : List (String × JVal)) (h : alookup acc "xml_attributes" = some (.obj bag)) :
    setInBag acc k v = aset acc "xml_attributes" (.obj (aset bag k v)) := by
  simp [setInBag, h]

theorem load_metadata_eq_lmFold (fields : List (String × FieldSpec)) (x : XmlNode) :
    load_metadata fields x = lmFold fields x.attrib [("xml_attributes", .obj [])] := rfl

theorem strip_has_xml_attributes : "xml_attributes" ∈ metadata_to_strip := by decide

theorem lmStep_stripped (fields : List (String × FieldSpec)) (acc : List (String × JVal))
    (kv : String × String) (hs : kv.1 ∈ metadata_to_strip) :
    lmStep fields acc kv = acc := by
  simp [lmStep, hs]

theorem lmStep_unknown (fields : List (String × FieldSpec)) (acc : List (String × JVal))
    (kv : String × String) (hs : kv.1 ∉ metadata_to_strip)
    (hf : alookup fields kv.1 = none) :
    lmStep fields acc kv = setInBag acc kv.1 (.str kv.2) := by
  simp [lmStep, hs, hf]

theorem lmStep_field (fields : List (String × FieldSpec)) (acc : List (String × JVal))
    (kv : String × String) (f : FieldSpec) (hs : kv.1 ∉ metadata_to_strip)
    (hf : alookup fields kv.1 = some f) :
    lmStep fields acc kv = aset acc kv.1 (deserialize_field f kv.2) := by
  simp [lmStep, hs, hf]

theorem lmStep_bagPresent (fields : List (String × FieldSpec))
    (acc : List (String × JVal)) (kv : String × String) (h : bagPresent acc) :
    bagPresent (lmStep fields acc kv) := by
  obtain ⟨bag, hb⟩ := h
  by_cases hs : kv.1 ∈ metadata_to_strip
  · rw [lmStep_stripped _ _ _ hs]
    exact ⟨bag, hb⟩
  · have hne : kv.1 ≠ "xml_attributes" := fun hh => hs (hh ▸ strip_has_xml_attributes)
    cases hf : alookup fields kv.1 with
    | none =>
      rw [lmStep_unknown _ _ _ hs hf, setInBag_eq _ _ _ _ hb]
      exact ⟨aset bag kv.1 (.str kv.2), alookup_aset_self _ _ _⟩
    | some f =>
      rw [lmStep_field _ _ _ _ hs hf]
      exact ⟨bag, by rw [alookup_aset_ne _ _ _ _ hne, hb]⟩

theorem lmFold_bagPresent (fields : List (String × FieldSpec)) (l : List (String × String))
    (acc : List (String × JVal)) (h : bagPresent acc) : bagPresent (lmFold fields l acc) := by
  induction l generalizing acc with
  | nil => exact h
  | cons kv rest ih => exact ih _ (lmStep_bagPresent _ _ _ h)

theorem lmStep_alookup_other (fields : List (String × FieldSpec))
    (acc : List (String × JVal)) (kv : String × String) (k : String) (hk : k ≠ kv.1)
    (hx : k ≠ "xml_attributes") (h : bagPresent acc) :
    alookup (lmStep fields acc kv) k = alookup acc k := by
  obtain ⟨bag, hb⟩ := h
  by_cases hs : kv.1 ∈ metadata_to_strip
  · rw [lmStep_stripped _ _ _ hs]
  · cases hf : alookup fields kv.1 with
    | none =>
      rw [lmStep_unknown _ _ _ hs hf, setInBag_eq _ _ _ _ hb]
      exact alookup_aset_ne _ _ _ _ (fun hh => hx hh.symm)
    | some f =>
      rw [lmStep_field _ _ _ _ hs hf]
      exact alookup_aset_ne _ _ _ _ (fun hh => hk hh.symm)

theorem lmStep_bagLookup_other (fields : List (String × FieldSpec))
    (acc : List (String × JVal)) (kv : String × String) (k : String) (hk : k ≠ kv.1)
    (h : bagPresent acc) :
    bagLookup (lmStep fields acc kv) k = bagLookup acc k := by
  obtain ⟨bag, hb⟩ := h
  by_cases hs : kv.1 ∈ metadata_to_strip
  · rw [lmStep_stripped _ _ _ hs]
  · have hne : kv.1 ≠ "xml_attributes" := fun hh => hs (hh ▸ strip_has_xml_attributes)
    cases hf : alookup fields kv.1 with
    | none =>
      rw [lmStep_unknown _ _ _ hs hf, setInBag_eq _ _ _ _ hb]
      rw [bagLookup, bagLookup, alookup_aset_self, hb]
      exact alookup_aset_ne _ _ _ _ (fun hh => hk hh.symm)
    | some f =>
      rw [lmStep_field _ _ _ _ hs hf]
      rw [bagLookup, bagLookup, alookup_aset_ne _ _ _ _ hne]

theorem lmFold_alookup_not_mem (fields : List (String × FieldSpec)) (l : List (String × String))
    (acc : List (String × JVal)) (k : String) (hk : k ∉ akeys l)
    (hx : k ≠ "xml_attributes") (h : bagPresent acc) :
    alookup (lmFold fields l acc) k = alookup acc k := by
  induction l generalizing acc with
  | nil => rfl
  | cons kv rest ih =>
    simp only [akeys, List.map_cons, List.mem_cons] at hk
    push_neg at hk
    have := ih (lmStep fields acc kv) hk.2 (lmStep_bagPresent _ _ _ h)
    rw [show lmFold fields (kv :: rest) acc = lmFold fields rest (lmStep fields acc kv) from rfl]
    rw [this, lmStep_alookup_other _ _ _ _ hk.1 hx h]

theorem lmFold_bagLookup_not_mem (fields : List (String × FieldSpec)) (l : List (String × String))
    (acc : List (String × JVal)) (k : String) (hk : k ∉ akeys l) (h : bagPresent acc) :
    bagLookup (lmFold fields l acc) k = bagLookup acc k := by
  induction l generalizing acc with
  | nil => rfl
  | cons kv rest ih =>
    simp only [akeys, List.map_cons, List.mem_cons] at hk
    push_neg at hk
    rw [show lmFold fields (kv :: rest) acc = lmFold fields rest (lmStep fields acc kv) from rfl]
    rw [ih (lmStep fields acc kv) hk.2 (lmStep_bagPresent _ _ _ h),
      lmStep_bagLookup_other _ _ _ _ hk.1 h]

theorem lmFold_bagLookup_mem (fields : List (String × FieldSpec)) (l : List (String × String))
    (acc : List (String × JVal)) (k v : String) (hnd : (akeys l).Nodup)
    (hv : alookup l k = some v) (hs : k ∉ metadata_to_strip)
    (hf : alookup fields k = none) (h : bagPresent acc) :
    bagLookup (lmFold fields l acc) k = some (.str v) := by
  induction l generalizing acc with
  | nil => simp [alookup] at hv
  | cons kv rest ih =>
    simp only [akeys, List.map_cons, List.nodup_cons] at hnd
    rw [show lmFold fields (kv :: rest) acc = lmFold fields rest (lmStep fields acc kv) from rfl]
    by_cases hk : kv.1 = k
    · subst hk
      simp only [alookup, if_pos rfl] at hv
      injection hv with hv
      subst hv
      obtain ⟨bag, hb⟩ := h
      rw [lmFold_bagLookup_not_mem _ _ _ _ hnd.1 (lmStep_bagPresent _ _ _ ⟨bag, hb⟩)]
      rw [lmStep_unknown _ _ _ hs hf, setInBag_eq _ _ _ _ hb]
      rw [bagLookup, alookup_aset_self]
      exact alookup_aset_self _ _ _
    · simp only [alookup, if_neg hk] at hv
      exact ih _ hnd.2 hv (lmStep_bagPresent _ _ _ h)

theorem lmFold_alookup_mem (fields : List (String × FieldSpec)) (l : List (String × String))
    (acc : List (String × JVal)) (k v : String) (f : FieldSpec) (hnd : (akeys l).Nodup)
    (hv : alookup l k = some v) (hs : k ∉ metadata_to_strip)
    (hf : alookup fields k = some f) (h : bagPresent acc) :
    alookup (lmFold fields l acc) k = some (deserialize_field f v) := by
  induction l generalizing acc with
  | nil => simp [alookup] at hv
  | cons kv rest ih =>
    simp only [akeys, List.map_cons, List.nodup_cons] at hnd
    rw [show lmFold fields (kv :: rest) acc = lmFold fields rest (lmStep fields acc kv) from rfl]
    by_cases hk : kv.1 = k
    · subst hk
      simp only [alookup, if_pos rfl] at hv
      injection hv with hv
      subst hv
      have hne : kv.1 ≠ "xml_attributes" := fun hh => hs (hh ▸ strip_has_xml_attributes)
      rw [lmFold_alookup_not_mem _ _ _ _ hnd.1 hne (lmStep_bagPresent _ _ _ h)]
      rw [lmStep_field _ _ _ _ hs hf]
      exact alookup_aset_self _ _ _
    · simp only [alookup, if_neg hk] at hv
      exact ih _ hnd.2 hv (lmStep_bagPresent _ _ _ h)

theorem alookup_isSome_iff_mem {α : Type} (l : List (String × α)) (k : String) :
    (∃ v, alookup l k = some v) ↔ k ∈ akeys l := by
  constructor
  · rintro ⟨v, hv⟩
    by_contra h
    rw [(alookup_eq_none_iff l k).mpr h] at hv
    cases hv
  · intro h
    cases hl : alookup l k with
    | some v => exact ⟨v, rfl⟩
    | none => exact absurd ((alookup_eq_none_iff l k).mp hl) (by simp [h])

theorem toEVal_str (s : String) : JVal.toEVal (.str s) = .str s := by
  simp [JVal.toEVal]

/-- C6: an attribute whose name matches no declared field and is not
stripped is imported verbatim into the `xml_attributes` bag; the union of
recognized (top-level, type-deserialized) and unhandled (bag) attribute
names reconstructs the original attribute set modulo the strip-list; and
export re-emits a bag entry `foo="bar"` verbatim onto the definition
element written to the export store. -/
theorem C6_unknown_attribute_roundtrip :
    (∀ (x : XmlNode) (k v : String), alookup x.attrib k = some v →
      (akeys x.attrib).Nodup → k ∉ metadata_to_strip → alookup htmlFields k = none →
      bagLookup (load_metadata htmlFields x) k = some (.str v)) ∧
    (∀ (x : XmlNode) (k : String), (akeys x.attrib).Nodup → k ∉ metadata_to_strip →
      (k ∈ akeys x.attrib ↔
        (((∃ w, alookup (load_metadata htmlFields x) k = some w) ∧ k ≠ "xml_attributes") ∨
         (∃ w, bagLookup (load_metadata htmlFields x) k = some w)))) ∧
    (∀ (b : Block) (fs : FS) (node : XmlNode) (bag : List (String × JVal)) (k v ds : String),
      b.fieldVal htmlDefaults "data" = .str ds →
      b.fieldVal htmlDefaults "xml_attributes" = .obj bag →
      (akeys bag).Nodup → alookup bag k = some (.str v) → k ∉ metadata_to_strip →
      ∃ fs2 node2 t,
        HtmlBlock.add_xml_to_node b fs node = some (fs2, node2) ∧
        alookup fs2 (format_filepath b.category
          (if b.category = "course" then b.run else name_to_pathname b.url_name)) =
          some (.xmlDoc t) ∧
        t.get k = some v) := by
  refine ⟨?_, ?_, ?_⟩
  · intro x k v hv hnd hs hf
    rw [load_metadata_eq_lmFold]
    exact lmFold_bagLookup_mem _ _ _ _ _ hnd hv hs hf ⟨[], by simp [alookup]⟩
  · intro x k hnd hs
    have hx : k ≠ "xml_attributes" := fun hh => hs (hh ▸ strip_has_xml_attributes)
    constructor
    · intro hmem
      obtain ⟨v, hv⟩ := (alookup_isSome_iff_mem x.attrib k).mpr hmem
      cases hf : alookup htmlFields k with
      | none =>
        right
        refine ⟨.str v, ?_⟩
        rw [load_metadata_eq_lmFold]
        exact lmFold_bagLookup_mem _ _ _ _ _ hnd hv hs hf ⟨[], by simp [alookup]⟩
      | some f =>
        left
        refine ⟨⟨deserialize_field f v, ?_⟩, hx⟩
        rw [load_metadata_eq_lmFold]
        exact lmFold_alookup_mem _ _ _ _ _ _ hnd hv hs hf ⟨[], by simp [alookup]⟩
    · intro hor
      by_contra hmem
      rcases hor with ⟨⟨w, hw⟩, _⟩ | ⟨w, hw⟩
      · rw [load_metadata_eq_lmFold,
          lmFold_alookup_not_mem _ _ _ _ hmem hx ⟨[], by simp [alookup]⟩] at hw
        have hz : alookup [("xml_attributes", JVal.obj [])] k = none := by
          simp [alookup, Ne.symm hx]
        rw [hz] at hw
        cases hw
      · rw [load_metadata_eq_lmFold,
          lmFold_bagLookup_not_mem _ _ _ _ hmem ⟨[], by simp [alookup]⟩] at hw
        have hz : bagLookup [("xml_attributes", JVal.obj [])] k = none := by
          simp [bagLookup, alookup]
        rw [hz] at hw
        cases hw
  · intro b fs node bag k v ds hdata hbag hnd hv hs
    rw [HtmlBlock.add_xml_to_node, HtmlBlock.definition_to_xml, hdata]
    simp only [hbag]
    refine ⟨_, _, _, rfl, alookup_aset_self _ _ _, ?_⟩
    rw [foldl_emitBag_get_mem (fun j => serialize_field (JVal.toEVal j)) bag _ k (.str v)
      hnd hv hs, toEVal_str]
    rfl

/-- Witness for C6: exporting a block whose bag holds `foo="bar"` writes a
definition element carrying `foo="bar"` verbatim. -/
theorem C6_unknown_attribute_roundtrip_witness :
    ∃ fs2 node2 t,
      HtmlBlock.add_xml_to_node
        { url_name := "p1", category := "html", org := "", course := "", run := "",
          fieldsSet := [("xml_attributes", JVal.obj [("foo", .str "bar")])], children := [] }
        [] (XmlNode.mk "unknown" [] none [] none) = some (fs2, node2) ∧
      alookup fs2 (format_filepath "html" (if ("html" : String) = "course" then ""
        else name_to_pathname "p1")) = some (.xmlDoc t) ∧
      t.get "foo" = some "bar" :=
  C6_unknown_attribute_roundtrip.2.2
    { url_name := "p1", category := "html", org := "", course := "", run := "",
      fieldsSet := [("xml_attributes", JVal.obj [("foo", .str "bar")])], children := [] }
    [] (XmlNode.mk "unknown" [] none [] none) [("foo", .str "bar")] "foo" "bar" ""
    rfl rfl (by decide) rfl (by decide)

theorem apply_policy_eq_fold (fields : List (String × FieldSpec)) (md policy : List (String × JVal)) :
    apply_policy fields md policy = policy.foldl (apStep fields) md := rfl

theorem apStep_bagPresent (fields : List (String × FieldSpec)) (md : List (String × JVal))
    (kv : String × JVal) (hx : kv.1 ≠ "xml_attributes") (h : bagPresent md) :
    bagPresent (apStep fields md kv) := by
  obtain ⟨bag, hb⟩ := h
  rw [apStep]
  by_cases hf : (alookup fields kv.1).isNone
  · simp only [if_pos hf]
    rw [setInBag_eq _ _ _ _ hb]
    exact ⟨aset bag kv.1 kv.2, alookup_aset_self _ _ _⟩
  · simp only [if_neg hf]
    exact ⟨bag, by rw [alookup_aset_ne _ _ _ _ hx, hb]⟩

theorem apStep_alookup_other (fields : List (String × FieldSpec)) (md : List (String × JVal))
    (kv : String × JVal) (k : String) (hk : k ≠ kv.1) (hx : k ≠ "xml_attributes")
    (h : bagPresent md) : alookup (apStep fields md kv) k = alookup md k := by
  obtain ⟨bag, hb⟩ := h
  rw [apStep]
  by_cases hf : (alookup fields kv.1).isNone
  · simp only [if_pos hf]
    rw [setInBag_eq _ _ _ _ hb]
    exact alookup_aset_ne _ _ _ _ (fun hh => hx hh.symm)
  · simp only [if_neg hf]
    exact alookup_aset_ne _ _ _ _ (fun hh => hk hh.symm)

theorem apStep_bagLookup_other (fields : List (String × FieldSpec)) (md : List (String × JVal))
    (kv : String × JVal) (k : String) (hk : k ≠ kv.1) (hxkv : kv.1 ≠ "xml_attributes")
    (h : bagPresent md) : bagLookup (apStep fields md kv) k = bagLookup md k := by
  obtain ⟨bag, hb⟩ := h
  rw [apStep]
  by_cases hf : (alookup fields kv.1).isNone
  · simp only [if_pos hf]
    rw [setInBag_eq _ _ _ _ hb]
    rw [bagLookup, bagLookup, alookup_aset_self, hb]
    exact alookup_aset_ne _ _ _ _ (fun hh => hk hh.symm)
  · simp only [if_neg hf]
    rw [bagLookup, bagLookup, alookup_aset_ne _ _ _ _ hxkv]

theorem apFold_alookup_not_mem (fields : List (String × FieldSpec))
    (policy : List (String × JVal)) (md : List (String × JVal)) (k : String)
    (hk : k ∉ akeys policy) (hx : k ≠ "xml_attributes")
    (hxa : "xml_attributes" ∉ akeys policy) (h : bagPresent md) :
    alookup (policy.foldl (apStep fields) md) k = alookup md k := by
  induction policy generalizing md with
  | nil => rfl
  | cons kv rest ih =>
    simp only [akeys, List.map_cons, List.mem_cons] at hk hxa
    push_neg at hk hxa
    rw [List.foldl_cons, ih _ hk.2 hxa.2
      (apStep_bagPresent _ _ _ (fun hh => hxa.1 hh.symm) h)]
    exact apStep_alookup_other _ _ _ _ hk.1 hx h

theorem apFold_bagLookup_not_mem (fields : List (String × FieldSpec))
    (policy : List (String × JVal)) (md : List (String × JVal)) (k : String)
    (hk : k ∉ akeys policy) (hxa : "xml_attributes" ∉ akeys policy) (h : bagPresent md) :
    bagLookup (policy.foldl (apStep fields) md) k = bagLookup md k := by
  induction policy generalizing md with
  | nil => rfl
  | cons kv rest ih =>
    simp only [akeys, List.map_cons, List.mem_cons] at hk hxa
    push_neg at hk hxa
    rw [List.foldl_cons, ih _ hk.2 hxa.2
      (apStep_bagPresent _ _ _ (fun hh => hxa.1 hh.symm) h)]
    exact apStep_bagLookup_other _ _ _ _ hk.1 (fun hh => hxa.1 hh.symm) h

theorem apFold_alookup_field (fields : List (String × FieldSpec))
    (policy : List (String × JVal)) (md : List (String × JVal)) (k : String) (v : JVal)
    (f : FieldSpec) (hnd : (akeys policy).Nodup) (hv : alookup policy k = some v)
    (hf : alookup fields k = some f) (hxa : "xml_attributes" ∉ akeys policy)
    (hx : k ≠ "xml_attributes") (h : bagPresent md) :
    alookup (policy.foldl (apStep fields) md) k = some v := by
  induction policy generalizing md with
  | nil => simp [alookup] at hv
  | cons kv rest ih =>
    simp only [akeys, List.map_cons, List.nodup_cons] at hnd
    simp only [akeys, List.map_cons, List.mem_cons] at hxa
    push_neg at hxa
    rw [List.foldl_cons]
    by_cases hk : kv.1 = k
    · subst hk
      simp only [alookup, if_pos rfl] at hv
      injection hv with hv
      subst hv
      rw [apFold_alookup_not_mem _ _ _ _ hnd.1 hx hxa.2
        (apStep_bagPresent _ _ _ (fun hh => hxa.1 hh.symm) h)]
      rw [apStep]
      simp only [hf, Option.isNone_some, Bool.false_eq_true, if_false]
      exact alookup_aset_self _ _ _
    · simp only [alookup, if_neg hk] at hv
      exact ih _ hnd.2 hv hxa.2 (apStep_bagPresent _ _ _ (fun hh => hxa.1 hh.symm) h)

theorem apFold_bagLookup_unknown (fields : List (String × FieldSpec))
    (policy : List (String × JVal)) (md : List (String × JVal)) (k : String) (v : JVal)
    (hnd : (akeys policy).Nodup) (hv : alookup policy k = some v)
    (hf : alookup fields k = none) (hxa : "xml_attributes" ∉ akeys policy)
    (h : bagPresent md) :
    bagLookup (policy.foldl (apStep fields) md) k = some v := by
  induction policy generalizing md with
  | nil => simp [alookup] at hv
  | cons kv rest ih =>
    simp only [akeys, List.map_cons, List.nodup_cons] at hnd
    simp only [akeys, List.map_cons, List.mem_cons] at hxa
    push_neg at hxa
    rw [List.foldl_cons]
    by_cases hk : kv.1 = k
    · subst hk
      simp only [alookup, if_pos rfl] at hv
      injection hv with hv
      subst hv
      rw [apFold_bagLookup_not_mem _ _ _ _ hnd.1 hxa.2
        (apStep_bagPresent _ _ _ (fun hh => hxa.1 hh.symm) h)]
      obtain ⟨bag, hb⟩ := h
      rw [apStep]
      simp only [hf, Option.isNone_none, if_true]
      rw [setInBag_eq _ _ _ _ hb, bagLookup, alookup_aset_self]
      exact alookup_aset_self _ _ _
    · simp only [alookup, if_neg hk] at hv
      exact ih _ hnd.2 hv hxa.2 (apStep_bagPresent _ _ _ (fun hh => hxa.1 hh.symm) h)

theorem alookup_aupdate_not_mem {α : Type} (d e : List (String × α)) (k : String)
    (h : k ∉ akeys e) : alookup (aupdate d e) k = alookup d k := by
  induction e generalizing d with
  | nil => rfl
  | cons kv rest ih =>
    simp only [akeys, List.map_cons, List.mem_cons] at h
    push_neg at h
    rw [show aupdate d (kv :: rest) = aupdate (aset d kv.1 kv.2) rest from by simp [aupdate]]
    rw [ih _ h.2]
    exact alookup_aset_ne _ _ _ _ (fun hh => h.1 hh.symm)

theorem overlay_eq_of_none (metadata definition : List (String × JVal))
    (hd : alookup definition "definition_metadata" = none) :
    HtmlBlock.overlay_definition_metadata metadata definition = metadata := by
  rw [HtmlBlock.overlay_definition_metadata, hd]

theorem overlay_eq_of_empty (metadata definition : List (String × JVal))
    (hd : alookup definition "definition_metadata" = some (.str "")) :
    HtmlBlock.overlay_definition_metadata metadata definition = metadata := by
  rw [HtmlBlock.overlay_definition_metadata, hd]
  simp

theorem overlay_eq_of_parse_error (metadata definition : List (String × JVal))
    (dm e : String) (hd : alookup definition "definition_metadata" = some (.str dm))
    (h0 : dm ≠ "") (hj : json_loads dm = .error e) :
    HtmlBlock.overlay_definition_metadata metadata definition =
      aset (aset metadata "definition_metadata_raw" (.str dm))
        "definition_metadata_err" (.str e) := by
  rw [HtmlBlock.overlay_definition_metadata, hd]
  simp only [if_pos h0, hj]

theorem overlay_eq_of_obj (metadata definition : List (String × JVal))
    (dm : String) (kvs : List (String × JVal))
    (hd : alookup definition "definition_metadata" = some (.str dm))
    (h0 : dm ≠ "") (hj : json_loads dm = .ok (.obj kvs)) :
    HtmlBlock.overlay_definition_metadata metadata definition =
      aupdate (aset metadata "definition_metadata_raw" (.str dm)) kvs := by
  rw [HtmlBlock.overlay_definition_metadata, hd]
  simp only [if_pos h0, hj]

theorem overlay_bagPresent (metadata definition : List (String × JVal))
    (h : bagPresent metadata)
    (hdm : ∀ dm kvs, alookup definition "definition_metadata" = some (.str dm) →
      json_loads dm = .ok (.obj kvs) → "xml_attributes" ∉ akeys kvs) :
    bagPresent (HtmlBlock.overlay_definition_metadata metadata definition) := by
  obtain ⟨bag, hb⟩ := h
  rw [HtmlBlock.overlay_definition_metadata]
  cases hd : alookup definition "definition_metadata" with
  | none => exact ⟨bag, hb⟩
  | some w =>
    cases w with
    | str dm =>
      by_cases h0 : dm = ""
      · subst h0
        simp only [ne_eq, not_true_eq_false, if_false]
        exact ⟨bag, hb⟩
      · simp only [ne_eq, h0, not_false_eq_true, if_true]
        have hraw : alookup (aset metadata "definition_metadata_raw" (.str dm))
            "xml_attributes" = some (.obj bag) := by
          rw [alookup_aset_ne _ _ _ _ (by decide), hb]
        cases hj : json_loads dm with
        | error e =>
          exact ⟨bag, by rw [alookup_aset_ne _ _ _ _ (by decide), hraw]⟩
        | ok v =>
          cases v with
          | obj kvs =>
            exact ⟨bag, by rw [alookup_aupdate_not_mem _ _ _ (hdm dm kvs hd hj), hraw]⟩
          | null => exact ⟨bag, by rw [alookup_aset_ne _ _ _ _ (by decide), hraw]⟩
          | bool b => exact ⟨bag, by rw [alookup_aset_ne _ _ _ _ (by decide), hraw]⟩
          | int n => exact ⟨bag, by rw [alookup_aset_ne _ _ _ _ (by decide), hraw]⟩
          | float m e => exact ⟨bag, by rw [alookup_aset_ne _ _ _ _ (by decide), hraw]⟩
          | str s => exact ⟨bag, by rw [alookup_aset_ne _ _ _ _ (by decide), hraw]⟩
          | arr xs => exact ⟨bag, by rw [alookup_aset_ne _ _ _ _ (by decide), hraw]⟩
    | null => exact ⟨bag, hb⟩
    | bool b => exact ⟨bag, hb⟩
    | int n => exact ⟨bag, hb⟩
    | float m e => exact ⟨bag, hb⟩
    | arr xs => exact ⟨bag, hb⟩
    | obj kvs => exact ⟨bag, hb⟩

/-- C4: in the metadata assembly of html's `parse_xml` the policy overlay
is applied last and wins for every key: a policy value lands top-level for
declared-field names and in the `xml_attributes` bag for unknown names,
overriding both the XML attribute and the embedded-metadata layers.
Concretely, with XML attribute `x="1"`, embedded metadata `{"x": 2}` and
policy `{"x": 3}`, the merged/materialized value of `x` is `3`; same for a
declared field name (`display_name`).  (Scope note: html's own
`load_definition` never emits `definition_metadata` — only poll's does —
while only html applies a policy; the merge code itself, shared between
both classes, has the claimed precedence.) -/
theorem C4_policy_precedence :
    (∀ (x : XmlNode) (definition policy : List (String × JVal)) (k : String) (v3 : JVal)
       (f : FieldSpec),
      (akeys policy).Nodup → "xml_attributes" ∉ akeys policy →
      alookup policy k = some v3 → alookup htmlFields k = some f →
      (∀ dm kvs, alookup definition "definition_metadata" = some (.str dm) →
        json_loads dm = .ok (.obj kvs) → "xml_attributes" ∉ akeys kvs) →
      alookup (HtmlBlock.merge_metadata x definition policy) k = some v3) ∧
    (∀ (x : XmlNode) (definition policy : List (String × JVal)) (k : String) (v3 : JVal),
      (akeys policy).Nodup → "xml_attributes" ∉ akeys policy →
      alookup policy k = some v3 → alookup htmlFields k = none →
      (∀ dm kvs, alookup definition "definition_metadata" = some (.str dm) →
        json_loads dm = .ok (.obj kvs) → "xml_attributes" ∉ akeys kvs) →
      bagLookup (HtmlBlock.merge_metadata x definition policy) k = some v3) ∧
    alookup (HtmlBlock.merge_metadata c4_node c4_definition c4_policy) "display_name" =
      some (.int 3) ∧
    bagLookup (HtmlBlock.merge_metadata c4_node c4_definition c4_policy) "x" = some (.int 3) ∧
    (∃ bagB,
      alookup (HtmlBlock.set_fields
        (aupdate (HtmlBlock.merge_metadata c4_node c4_definition c4_policy) c4_definition)
        c4_definition c4_init).fieldsSet "xml_attributes" = some (.obj bagB) ∧
      alookup bagB "x" = some (.int 3)) ∧
    alookup (HtmlBlock.set_fields
        (aupdate (HtmlBlock.merge_metadata c4_node c4_definition c4_policy) c4_definition)
        c4_definition c4_init).fieldsSet "display_name" = some (.int 3) := by
  have hbp : ∀ (x : XmlNode) (definition : List (String × JVal)),
      (∀ dm kvs, alookup definition "definition_metadata" = some (.str dm) →
        json_loads dm = .ok (.obj kvs) → "xml_attributes" ∉ akeys kvs) →
      bagPresent (HtmlBlock.overlay_definition_metadata
        (load_metadata htmlFields x) definition) := by
    intro x definition hdm
    refine overlay_bagPresent _ _ ?_ hdm
    rw [load_metadata_eq_lmFold]
    exact lmFold_bagPresent _ _ _ ⟨[], by simp [alookup]⟩
  refine ⟨?_, ?_, by rfl, by rfl, ⟨[("x", .int 3), ("filename", .arr [.str "", .null])],
    by rfl, by rfl⟩, by rfl⟩
  · intro x definition policy k v3 f hnd hxa hv hf hdm
    have hkmem : k ∈ akeys policy := (alookup_isSome_iff_mem _ _).mp ⟨v3, hv⟩
    have hx : k ≠ "xml_attributes" := fun hh => hxa (hh ▸ hkmem)
    rw [HtmlBlock.merge_metadata, apply_policy_eq_fold]
    exact apFold_alookup_field _ _ _ _ _ _ hnd hv hf hxa hx (hbp x definition hdm)
  · intro x definition policy k v3 hnd hxa hv hf hdm
    rw [HtmlBlock.merge_metadata, apply_policy_eq_fold]
    exact apFold_bagLookup_unknown _ _ _ _ _ hnd hv hf hxa (hbp x definition hdm)

/-- Witness for C4: the general field-name conjunct applied to the
concrete x=1/2/3 scenario's `display_name` key. -/
theorem C4_policy_precedence_witness :
    alookup (HtmlBlock.merge_metadata c4_node c4_definition c4_policy) "display_name" =
      some (.int 3) :=
  C4_policy_precedence.1 c4_node c4_definition c4_policy "display_name" (.int 3)
    { scope := .settings, from_json := stringFromJson } (by decide) (by decide) rfl rfl
    (fun dm kvs hd hj => by
      simp only [c4_definition, alookup, if_neg (by decide : ¬("data" = "definition_metadata")),
        if_pos rfl, if_true, Option.some.injEq, JVal.str.injEq] at hd
      subst hd
      rw [show json_loads "\x7b\"x\": 2, \"display_name\": 2\x7d" =
        .ok (.obj [("x", .int 2), ("display_name", .int 2)]) from rfl] at hj
      injection hj with h1
      injection h1 with h2
      subst h2
      decide)

/-- C9: when embedded definition-metadata text fails to parse, importing
does not raise: the metadata stage records the raw text under
`definition_metadata_raw` and the parse-error string under
`definition_metadata_err`, leaves every other key untouched, and a full
poll import of such a node completes normally, producing exactly the block
the same node without the `meta` child produces. -/
theorem C9_malformed_embedded_metadata :
    (∀ (definition_xml : XmlNode) (definition : List (String × JVal)) (dm e : String),
      alookup definition "definition_metadata" = some (.str dm) → dm ≠ "" →
      json_loads dm = .error e →
      PollBlock.parse_metadata definition_xml definition =
        aset (aset (load_metadata pollFields definition_xml)
          "definition_metadata_raw" (.str dm)) "definition_metadata_err" (.str e) ∧
      alookup (PollBlock.parse_metadata definition_xml definition)
        "definition_metadata_raw" = some (.str dm) ∧
      alookup (PollBlock.parse_metadata definition_xml definition)
        "definition_metadata_err" = some (.str e) ∧
      (∀ k, k ≠ "definition_metadata_raw" → k ≠ "definition_metadata_err" →
        alookup (PollBlock.parse_metadata definition_xml definition) k =
          alookup (load_metadata pollFields definition_xml) k)) ∧
    PollBlock.parse_xml c9_node_with_meta [] "d" "p" "poll_question" "" "" =
      PollBlock.parse_xml c9_node_without_meta [] "d" "p" "poll_question" "" "" ∧
    (∃ b, PollBlock.parse_xml c9_node_with_meta [] "d" "p" "poll_question" "" "" = .ok b) := by
  refine ⟨?_, by rfl, ⟨_, by rfl⟩⟩
  intro definition_xml definition dm e hd h0 hj
  have heq : PollBlock.parse_metadata definition_xml definition =
      aset (aset (load_metadata pollFields definition_xml)
        "definition_metadata_raw" (.str dm)) "definition_metadata_err" (.str e) := by
    rw [PollBlock.parse_metadata, hd]
    simp only [if_pos h0, hj]
  refine ⟨heq, ?_, ?_, ?_⟩
  · rw [heq, alookup_aset_ne _ _ _ _ (by decide)]
    exact alookup_aset_self _ _ _
  · rw [heq]
    exact alookup_aset_self _ _ _
  · intro k hk1 hk2
    rw [heq, alookup_aset_ne _ _ _ _ (Ne.symm hk2), alookup_aset_ne _ _ _ _ (Ne.symm hk1)]

/-- Witness for C9's recording conjunct at a concrete malformed payload. -/
theorem C9_malformed_embedded_metadata_witness :
    alookup (PollBlock.parse_metadata c9_node_with_meta
      [("definition_metadata", JVal.str "\x7bbad json")]) "definition_metadata_err" =
      some (.str "Expecting property name") :=
  (C9_malformed_embedded_metadata.1 c9_node_with_meta
    [("definition_metadata", JVal.str "\x7bbad json")] "\x7bbad json" "Expecting property name"
    rfl (by decide) rfl).2.2.1

/-- C8 counterexample: importing `<block url_name="x1"/>` when
`block/x1.xml` is missing FAILS even though `block/x1.html` exists and is
on the backcompat path list — the pointer loader `load_definition_xml`
never consults `backcompat_paths`, so the claim is false as stated. -/
theorem C8_backcompat_pointer_counterexample :
    is_pointer_tag c8_node = true ∧
    "block/x1.html" ∈ HtmlBlock.backcompat_paths "block/x1.xml" ∧
    fsExists c8_fs "block/x1.html" = true ∧
    HtmlBlock.load_definition_xml c8_node c8_fs "d" =
      .error { message := "Unable to load file contents at path block/x1.xml for item d: " ++
                          "resource block/x1.xml not found",
               cause := some "resource block/x1.xml not found" } ∧
    HtmlBlock.parse_xml c8_node c8_fs [] "d" "x1" "block" "" "" "x1" =
      .error { message := "Unable to load file contents at path block/x1.xml for item d: " ++
                          "resource block/x1.xml not found",
               cause := some "resource block/x1.xml not found" } := by
  refine ⟨rfl, by decide, rfl, by rfl, by rfl⟩

/-- C8 amended: the backcompat path list is never consulted for pointer
target files — a pointer import with a missing primary target fails
outright regardless of what else the store holds.  Backcompat fallback
lives instead in html's `load_definition` filename branch: when the
content path `{base}/{filename}.html` does not exist, the first existing
candidate from `backcompat_paths` is read and its text becomes the
block's data. -/
theorem C8_backcompat_fallback_amended :
    (∀ (fs : FS) (node : XmlNode) (def_id u : String),
      node.get "url_name" = some u →
      alookup fs (format_filepath node.tag (name_to_pathname u)) = none →
      HtmlBlock.load_definition_xml node fs def_id =
        .error { message := "Unable to load file contents at path " ++
                            format_filepath node.tag (name_to_pathname u) ++ " for item " ++
                            def_id ++ ": " ++
                            ("resource " ++ format_filepath node.tag (name_to_pathname u) ++
                             " not found"),
                 cause := some ("resource " ++ format_filepath node.tag (name_to_pathname u) ++
                                " not found") }) ∧
    (∀ (fs : FS) (x : XmlNode) (filename block_id p0 c t : String),
      x.get "filename" = some filename →
      dirnamePath ("html/" ++ name_to_pathname block_id) ++ "/" ++ filename ++ ".html" = p0 →
      fsExists fs p0 = false →
      (HtmlBlock.backcompat_paths p0).find? (fun cand => fsExists fs cand) = some c →
      fsReadText fs c = .ok t →
      HtmlBlock.load_definition x fs block_id =
        .ok ([("data", .str t), ("filename", .arr [.str c, .str filename])], [])) := by
  constructor
  · intro fs node def_id u hu hmiss
    rw [HtmlBlock.load_definition_xml, hu]
    have hx : fsReadXml fs (format_filepath node.tag (name_to_pathname u)) =
        .error ("resource " ++ format_filepath node.tag (name_to_pathname u) ++
          " not found") := by
      simp [fsReadXml, hmiss]
    simp [load_file, hx]
  · intro fs x filename block_id p0 c t hfn hp0 hmiss hfind hread
    rw [HtmlBlock.load_definition, hfn]
    simp only [hp0, hmiss, Bool.false_eq_true, if_false, hfind, hread]

/-- Witness for C8's amended fallback branch: with block id `a:b` and
filename `x1`, the primary `html/a/x1.html` is missing and the walked-up
candidate `a/x1.html` is loaded instead. -/
theorem C8_backcompat_fallback_amended_witness :
    HtmlBlock.load_definition (XmlNode.mk "html" [("filename", "x1")] none [] none)
      [("a/x1.html", FileContent.rawText "hello")] "a:b" =
      .ok ([("data", .str "hello"),
            ("filename", .arr [.str "a/x1.html", .str "x1"])], []) :=
  C8_backcompat_fallback_amended.2 [("a/x1.html", FileContent.rawText "hello")]
    (XmlNode.mk "html" [("filename", "x1")] none [] none) "x1" "a:b" "html/a/x1.html"
    "a/x1.html" "hello" rfl rfl rfl rfl rfl

theorem akeys_aset_subset {α : Type} (l : List (String × α)) (k : String) (v : α) (a : String)
    (h : a ∈ akeys (aset l k v)) : a ∈ akeys l ∨ a = k := by
  induction l with
  | nil => simp [aset, akeys] at h; simp [h]
  | cons kv rest ih =>
    by_cases hk : kv.1 = k
    · simp only [aset, if_pos hk, akeys, List.map_cons, List.mem_cons] at h ⊢
      rcases h with h | h
      · right; exact h
      · left; right; exact h
    · simp only [aset, if_neg hk, akeys, List.map_cons, List.mem_cons] at h ⊢
      rcases h with h | h
      · left; left; exact h
      · rcases ih h with h2 | h2
        · left; right; exact h2
        · right; exact h2

theorem aset_keys_nodup {α : Type} (l : List (String × α)) (k : String) (v : α)
    (h : (akeys l).Nodup) : (akeys (aset l k v)).Nodup := by
  induction l with
  | nil => simp [aset, akeys]
  | cons kv rest ih =>
    simp only [akeys, List.map_cons, List.nodup_cons] at h
    by_cases hk : kv.1 = k
    · subst hk
      have hset : aset (kv :: rest) kv.1 v = (kv.1, v) :: rest := by
        simp [aset]
      rw [hset]
      simp only [akeys, List.map_cons, List.nodup_cons]
      exact ⟨h.1, h.2⟩
    · simp only [aset, if_neg hk, akeys, List.map_cons, List.nodup_cons]
      refine ⟨?_, ih h.2⟩
      intro habs
      rcases akeys_aset_subset rest k v kv.1 habs with h2 | h2
      · exact h.1 h2
      · exact hk h2

theorem foldl_emitBag_get_strip (f : JVal → String) (l : List (String × JVal)) (x : XmlNode)
    (k : String) (hk : k ∈ metadata_to_strip) :
    (l.foldl (fun x kv => if metadata_to_strip.contains kv.1 then x
                          else x.setAttr kv.1 (f kv.2)) x).get k = x.get k := by
  induction l generalizing x with
  | nil => rfl
  | cons kv rest ih =>
    simp only [List.foldl_cons]
    rw [ih]
    by_cases hs : kv.1 ∈ metadata_to_strip
    · simp [hs]
    · have : kv.1 ≠ k := fun hh => hs (hh ▸ hk)
      simp [hs, setAttr_get_ne _ _ _ _ this]

theorem foldl_emitBag_attrib_nodup (f : JVal → String) (l : List (String × JVal)) (x : XmlNode)
    (h : (akeys x.attrib).Nodup) :
    (akeys (l.foldl (fun x kv => if metadata_to_strip.contains kv.1 then x
                          else x.setAttr kv.1 (f kv.2)) x).attrib).Nodup := by
  induction l generalizing x with
  | nil => exact h
  | cons kv rest ih =>
    simp only [List.foldl_cons]
    by_cases hs : kv.1 ∈ metadata_to_strip
    · simp only [show metadata_to_strip.contains kv.1 = true by simpa using hs, if_true]
      exact ih _ h
    · simp only [show metadata_to_strip.contains kv.1 = false by simpa using hs,
        Bool.false_eq_true, if_false]
      refine ih _ ?_
      cases x
      exact aset_keys_nodup _ _ _ h

theorem foldl_emitBag_keys_subset (f : JVal → String) (l : List (String × JVal)) (x : XmlNode)
    (a : String)
    (h : a ∈ akeys (l.foldl (fun x kv => if metadata_to_strip.contains kv.1 then x
                          else x.setAttr kv.1 (f kv.2)) x).attrib) :
    a ∈ akeys x.attrib ∨ (a ∈ akeys l ∧ a ∉ metadata_to_strip) := by
  induction l generalizing x with
  | nil => exact Or.inl h
  | cons kv rest ih =>
    simp only [List.foldl_cons] at h
    rcases ih _ h with h2 | h2
    · by_cases hs : kv.1 ∈ metadata_to_strip
      · simp only [show metadata_to_strip.contains kv.1 = true by simpa using hs, if_true] at h2
        exact Or.inl h2
      · simp only [show metadata_to_strip.contains kv.1 = false by simpa using hs,
          Bool.false_eq_true, if_false] at h2
        rcases akeys_aset_subset x.attrib kv.1 (f kv.2) a
          (by cases x; exact h2) with h3 | h3
        · exact Or.inl h3
        · right
          refine ⟨?_, h3 ▸ hs⟩
          simp [akeys, h3]
    · right
      simp only [akeys, List.map_cons, List.mem_cons]
      exact ⟨Or.inr h2.1, h2.2⟩

